import Mathlib

/-!
Shallow embedding of the EDITH response-cache and streaming layer
(`src/cache.rs`, `src/streaming.rs`) and proofs about it.

Modelling conventions:
* Rust `Instant` and `SystemTime` are both modelled as rational numbers of
  seconds on one common timeline whose origin is the Unix epoch; `Duration`
  is a rational number of seconds.  `Instant::elapsed`/`duration_since`
  saturate at zero, which `elapsedSince` reproduces.
* Machine integers (`u32`, `u64`, `usize`) are modelled as `Nat`; the hash
  arithmetic that actually wraps is reduced `% 2 ^ 64` explicitly.
* `serde_json::Value` parameters enter the fingerprint only through
  `value.to_string()`, so a parameter map is modelled as the iteration-order
  list of `(key, serialized value)` string pairs.
* The byte-level hash primitives (`Sha256`, `DefaultHasher`) live in the
  standard library / external crates, not in this repository; they are
  modelled by concrete executable stand-in functions.  Every theorem below
  depends only on their being deterministic functions of their input
  byte sequence, which the real primitives are.
-/

namespace Edith

/-- Saturating elapsed time, as computed by `Instant::elapsed` /
`Instant::duration_since`: the result is clamped at zero. -/
def elapsedSince (now created : ℚ) : ℚ := max (now - created) 0

/-- Model of `streaming.rs` `TokenMetadata`: a wall-clock timestamp and an
optional token count. -/
structure TokenMetadata where
  timestamp : ℚ
  token_count : Option Nat
deriving DecidableEq, Repr

/-- Model of `streaming.rs` `StreamToken`. -/
structure StreamToken where
  content : String
  is_complete : Bool
  metadata : Option TokenMetadata
deriving DecidableEq, Repr

/-! ### Cache keys and parameter fingerprints (`cache.rs` lines 58-98) -/

/-- Stand-in for one `Hasher::write` step of `std::collections::hash_map::DefaultHasher`
folding one string into a 64-bit state.  The claims depend only on this
being a deterministic function of `(h, s)`. -/
def hashWriteStr (h : Nat) (s : String) : Nat :=
  s.foldl (fun a c => (a * 31 + c.toNat + 1) % 2 ^ 64) ((h * 1099511628211 + 14695981039346656037) % 2 ^ 64)

/-- Stand-in for taking the first 8 bytes of `Sha256(prompt)` as a
little-endian `u64` (`CacheKey::new`).  The claims depend only on this being
a deterministic function of the prompt. -/
def sha256First8LE (s : String) : Nat :=
  s.foldl (fun a c => (a * 131 + c.toNat + 7) % 2 ^ 64) 5381

/-- Model of `cache.rs` `ParameterHash`, a newtype around a `u64`. -/
structure ParameterHash where
  val : Nat
deriving DecidableEq, Repr

/-- The comparison the source's `sort_by_key(|(k, _)| *k)` sorts with:
string order on the key component.  Lexicographic order on Rust byte
strings and on Lean code-point strings agree, because UTF-8 byte order
preserves code-point order. -/
def paramLe (a b : String × String) : Bool := decide (a.1 ≤ b.1)

/-- Model of `ParameterHash::new` (`cache.rs` lines 83-97): sort the map's
entries by key, then fold each key and serialized value into the hasher. -/
def ParameterHash.new (parameters : List (String × String)) : ParameterHash :=
  let sorted_params := parameters.mergeSort paramLe
  ⟨sorted_params.foldl (fun h kv => hashWriteStr (hashWriteStr h kv.1) kv.2) 0⟩

/-- Model of `cache.rs` `CacheKey`.  Equality is structural, as derived
`PartialEq`/`Eq` is in the source. -/
structure CacheKey where
  prompt_hash : Nat
  model : String
  parameters : ParameterHash
deriving DecidableEq, Repr

/-- Model of `CacheKey::new` (`cache.rs` lines 66-76). -/
def CacheKey.new (prompt model : String) (parameters : List (String × String)) : CacheKey :=
  { prompt_hash := sha256First8LE prompt
    model := model
    parameters := ParameterHash.new parameters }

/-! ### Durable-tier file names (`cache.rs` lines 425 and 439) -/

/-- Lowercase hexadecimal digits of `n`, most significant first, as Rust's
`format!("\x7b:x\x7d", n)` renders a `u64`: minimal width, no leading
zeros, and `"0"` for zero. -/
def hexDigits (n : Nat) : List Char :=
  if h : n < 16 then [Nat.digitChar n]
  else hexDigits (n / 16) ++ [Nat.digitChar (n % 16)]
termination_by n
decreasing_by
  exact Nat.div_lt_self (by omega) (by omega)

/-- The rendered hex string of a `u64`. -/
def hexString (n : Nat) : String := ⟨hexDigits n⟩

/-- The file name (inside the cache directory) that `save_to_disk` and
`load_from_disk_by_key` derive from a key:
`format!("\x7b:x\x7d.json", key.prompt_hash)`. -/
def cacheFileName (key : CacheKey) : String := hexString key.prompt_hash ++ ".json"

/-! ### Rate limiter (`streaming.rs` lines 76-137) -/

/-- Model of `streaming.rs` `RateLimiter`.  `tokens` is an `f64` in the
source; all values it takes here are exact in binary floating point, so ℚ
is a faithful model. -/
structure RateLimiter where
  max_concurrent : Nat
  current_count : Nat
  tokens : ℚ
  max_tokens : ℚ
  refill_rate : ℚ
  last_refill : ℚ
deriving DecidableEq, Repr

/-- Model of `RateLimiter::new`; `now` is the creation instant
(`Instant::now()` in the source). -/
def RateLimiter.new (max_concurrent : Nat) (requests_per_second : ℚ) (now : ℚ) : RateLimiter :=
  { max_concurrent := max_concurrent
    current_count := 0
    tokens := requests_per_second
    max_tokens := requests_per_second
    refill_rate := requests_per_second
    last_refill := now }

/-- Model of `RateLimiter::refill_tokens` (`streaming.rs` lines 119-128). -/
def RateLimiter.refill_tokens (rl : RateLimiter) (now : ℚ) : RateLimiter :=
  let elapsed := elapsedSince now rl.last_refill
  if 0 < elapsed then
    { rl with
      tokens := min (rl.tokens + elapsed * rl.refill_rate) rl.max_tokens
      last_refill := now }
  else rl

/-- Model of `RateLimiter::can_proceed`: refills, then tests the concurrency
cap and the token bucket.  Returns the decision together with the refilled
state (the source mutates `self`). -/
def RateLimiter.can_proceed (rl : RateLimiter) (now : ℚ) : Bool × RateLimiter :=
  let rl' := rl.refill_tokens now
  (decide (rl'.current_count < rl'.max_concurrent) && decide ((1 : ℚ) ≤ rl'.tokens), rl')

/-- Model of `RateLimiter::acquire` (`streaming.rs` lines 103-111). -/
def RateLimiter.acquire (rl : RateLimiter) (now : ℚ) : Bool × RateLimiter :=
  match rl.can_proceed now with
  | (true, rl') =>
      (true, { rl' with current_count := rl'.current_count + 1, tokens := rl'.tokens - 1 })
  | (false, rl') => (false, rl')

/-- Model of `RateLimiter::release` (`streaming.rs` lines 113-117). -/
def RateLimiter.release (rl : RateLimiter) : RateLimiter :=
  if 0 < rl.current_count then { rl with current_count := rl.current_count - 1 } else rl

/-! ### The streaming producer loop (`StreamingManager::stream_chat`,
`streaming.rs` lines 215-275)

The producer pulls byte chunks from the HTTP response and splits each chunk
into lines.  A line either parses to a JSON record carrying
`message.content` (modelled as `some record`) or is skipped — empty,
unparseable, or without a content field (modelled as `none`).
The channel receiver is modelled by `recvCap`: `none` means the receiver is
never dropped; `some c` means the first `c` send attempts succeed and every
later send attempt fails (`UnboundedSender::send` fails exactly from the
moment the receiver is dropped, and send attempts happen sequentially).
`cancelled i` is the value the cancellation token shows when the producer
checks it before processing chunk `i`; `ts i` is the wall-clock timestamp
`chrono::Utc::now()` observed when building the token of send attempt `i`. -/

/-- One parsed line of the backend's line-delimited response:
`message.content` and the `done` flag (`unwrap_or(false)`). -/
structure ChunkRecord where
  content : String
  done : Bool
deriving DecidableEq, Repr

/-- Whether send attempt `i` succeeds under receiver model `recvCap`. -/
def sendOk (recvCap : Option Nat) (i : Nat) : Bool :=
  match recvCap with
  | none => true
  | some c => decide (i < c)

/-- The inner `for line in chunk_str.lines()` loop of `stream_chat`, for one
chunk: returns the tokens successfully sent from this chunk and the updated
send-attempt counter.  Mirrors the source exactly: after a send failure, and
after forwarding a token with `is_complete = true`, it `break`s — which
exits only this per-line loop. -/
def processChunk (recvCap : Option Nat) (ts : Nat → ℚ) :
    List (Option ChunkRecord) → Nat → List StreamToken × Nat
  | [], a => ([], a)
  | none :: rest, a => processChunk recvCap ts rest a
  | some r :: rest, a =>
      let token : StreamToken :=
        { content := r.content
          is_complete := r.done
          metadata := some { timestamp := ts a, token_count := none } }
      if sendOk recvCap a then
        if r.done then ([token], a + 1)
        else
          let (toks, a') := processChunk recvCap ts rest (a + 1)
          (token :: toks, a')
      else ([], a + 1)

/-- The outer `while let Some(chunk_result) = stream.next()` loop of
`stream_chat`, starting at chunk index `ci` with send-attempt counter `a`:
before each chunk the cancellation token is checked (a set token `break`s
the outer loop), then the chunk's lines are processed by `processChunk`.
Returns every token successfully sent on the channel, in order. -/
def streamChatGo (recvCap : Option Nat) (ts : Nat → ℚ) (cancelled : Nat → Bool) :
    List (List (Option ChunkRecord)) → Nat → Nat → List StreamToken
  | [], _, _ => []
  | c :: cs, ci, a =>
      if cancelled ci then []
      else
        let (toks, a') := processChunk recvCap ts c a
        toks ++ streamChatGo recvCap ts cancelled cs (ci + 1) a'

/-- All tokens the producer of `stream_chat` successfully forwards on the
session channel, for a given sequence of incoming chunks. -/
def streamChatSends (chunks : List (List (Option ChunkRecord)))
    (cancelled : Nat → Bool) (recvCap : Option Nat) (ts : Nat → ℚ) : List StreamToken :=
  streamChatGo recvCap ts cancelled chunks 0 0

/-! ### Request retry (`StreamingManager::send_request_with_retry`,
`streaming.rs` lines 291-328) -/

/-- Outcome of one network attempt: an HTTP response with a status code, or
a transport-level failure of `send()`. -/
inductive AttemptResult where
  | ok (status : Nat)
  | connErr
deriving DecidableEq, Repr

/-- Final result of the retry loop: `success` returns the response,
`connection` is `StreamError::Connection("HTTP error: ...")`, `http` is
`StreamError::Http(e)`. -/
inductive RetryOutcome where
  | success (status : Nat)
  | connection (status : Nat)
  | http
deriving DecidableEq, Repr

/-- `reqwest::StatusCode::is_success`: 200..=299. -/
def isSuccessStatus (s : Nat) : Bool := decide (200 ≤ s) && decide (s ≤ 299)

/-- `reqwest::StatusCode::is_server_error`: 500..=599. -/
def isServerError (s : Nat) : Bool := decide (500 ≤ s) && decide (s ≤ 599)

/-- The retry loop of `send_request_with_retry`, from attempt number
`attempt` with current backoff `delay` (milliseconds).  `oracle i` is the
outcome of the `i`-th network attempt.  Returns the final outcome, the
total number of attempts performed, and the list of backoff delays slept,
in order.  The source's single condition
`response.status().is_server_error() && attempt < max_retries` is split
into two nested `if`s with the same semantics.  The loop retries only
while `attempt < max_retries`, so it runs at most `max_retries + 1`
iterations; `fuel` is an explicit structural bound on iterations and the
`fuel = 0` case is unreachable from `sendRequestWithRetry`'s entry value. -/
def retryGo (oracle : Nat → AttemptResult) (max_retries : Nat) :
    Nat → Nat → Nat → RetryOutcome × Nat × List Nat
  | 0, attempt, _ => (.http, attempt, [])
  | fuel + 1, attempt, delay =>
    match oracle attempt with
    | .ok s =>
        if isSuccessStatus s then (.success s, attempt + 1, [])
        else if isServerError s then
          if attempt < max_retries then
            ((retryGo oracle max_retries fuel (attempt + 1) (delay * 2)).1,
              (retryGo oracle max_retries fuel (attempt + 1) (delay * 2)).2.1,
              delay :: (retryGo oracle max_retries fuel (attempt + 1) (delay * 2)).2.2)
          else (.connection s, attempt + 1, [])
        else (.connection s, attempt + 1, [])
    | .connErr =>
        if attempt < max_retries then
          ((retryGo oracle max_retries fuel (attempt + 1) (delay * 2)).1,
            (retryGo oracle max_retries fuel (attempt + 1) (delay * 2)).2.1,
            delay :: (retryGo oracle max_retries fuel (attempt + 1) (delay * 2)).2.2)
        else (.http, attempt + 1, [])

/-- Model of `send_request_with_retry`: attempt counter starts at 0 and the
backoff delay at 100 ms. -/
def sendRequestWithRetry (oracle : Nat → AttemptResult) (max_retries : Nat) :
    RetryOutcome × Nat × List Nat :=
  retryGo oracle max_retries (max_retries + 1) 0 100

/-- A network attempt outcome the retry loop is allowed to retry after:
a server-error status or a transport failure. -/
def retryable (a : AttemptResult) : Prop :=
  a = .connErr ∨ ∃ s, a = .ok s ∧ isServerError s = true

/-! ### Cache data model (`cache.rs` lines 14-189) -/

/-- Model of `cache.rs` `CacheError`.  The payloads of `Serialization` and
`Io` are reduced to their rendered messages. -/
inductive CacheError where
  | Serialization (msg : String)
  | Io (msg : String)
  | CacheFull
  | MemoryPressure
  | Persistence (msg : String)
deriving DecidableEq, Repr

/-- Model of `cache.rs` `ResponseMetadata`. -/
structure ResponseMetadata where
  model : String
  tokens_used : Option Nat
  response_time : ℚ
  backend_type : String
deriving DecidableEq, Repr

/-- Model of `cache.rs` `CacheEntry`. -/
structure CacheEntry where
  response : String
  created_at : ℚ
  access_count : Nat
  metadata : ResponseMetadata
  is_streaming : Bool
  stream_tokens : Option (List StreamToken)
deriving DecidableEq, Repr

/-- Model of `cache.rs` `CacheConfig`.  `ttl` and
`memory_pressure_threshold` are rationals (`Duration` / `f64` in the
source); `cache_dir` is the directory path string. -/
structure CacheConfig where
  max_memory_entries : Nat
  ttl : ℚ
  enable_persistence : Bool
  cache_streaming : Bool
  cache_dir : Option String
  max_memory_bytes : Option Nat
  memory_pressure_threshold : ℚ
deriving DecidableEq, Repr

/-- Model of `cache.rs` `CacheStats`. -/
structure CacheStats where
  hits : Nat
  misses : Nat
  total_entries : Nat
  memory_usage_bytes : Nat
  evictions : Nat
  disk_writes : Nat
  disk_reads : Nat
deriving DecidableEq, Repr

/-- Model of `cache.rs` `PersistentCacheEntry`; `created_at` is a wall-clock
timestamp (seconds since the epoch). -/
structure PersistentCacheEntry where
  response : String
  created_at : ℚ
  access_count : Nat
  metadata : ResponseMetadata
  is_streaming : Bool
  stream_tokens : Option (List StreamToken)
deriving DecidableEq, Repr

/-- Conversion `PersistentCacheEntry::from(&CacheEntry)` performed at wall
time `now`: `created_at` becomes `SystemTime::now() - entry.created_at.elapsed()`. -/
def toPersistent (entry : CacheEntry) (now : ℚ) : PersistentCacheEntry :=
  { response := entry.response
    created_at := now - elapsedSince now entry.created_at
    access_count := entry.access_count
    metadata := entry.metadata
    is_streaming := entry.is_streaming
    stream_tokens := entry.stream_tokens }

/-- Conversion `CacheEntry::from(PersistentCacheEntry)` performed at instant
`now`: the stored wall-clock time is turned into a duration since the epoch
(failing, hence falling back to `Instant::now()`, when it lies before the
epoch) and subtracted from `Instant::now()`. -/
def fromPersistent (entry : PersistentCacheEntry) (now : ℚ) : CacheEntry :=
  { response := entry.response
    created_at := if 0 ≤ entry.created_at then now - entry.created_at else now
    access_count := entry.access_count
    metadata := entry.metadata
    is_streaming := entry.is_streaming
    stream_tokens := entry.stream_tokens }

/-- Environment for the durable tier: whether `create_dir_all`, `fs::write`
and `fs::read_to_string` succeed.  (Serialization of entries we ourselves
wrote always round-trips, so `serde_json` failures do not occur in the
model.) -/
structure DiskEnv where
  mkdir_ok : Bool
  write_ok : Bool
  read_ok : Bool
deriving DecidableEq, Repr

/-- Model of `CacheManager` (`cache.rs` lines 185-189) together with the
durable tier it owns: `memory_cache` is the `LruCache` as an association
list ordered from most- to least-recently used, and `disk` maps file paths
to the records written there. -/
structure CacheManager where
  memory_cache : List (CacheKey × CacheEntry)
  config : CacheConfig
  stats : CacheStats
  disk : List (String × PersistentCacheEntry)
deriving DecidableEq, Repr

/-! ### LRU-cache primitives (the `lru` crate operations the source uses) -/

/-- Lookup without touching recency (`LruCache::peek` / the read side of
`get_mut`). -/
def lruLookup (l : List (CacheKey × CacheEntry)) (k : CacheKey) : Option CacheEntry :=
  (l.find? (fun p => decide (p.1 = k))).map (·.2)

/-- Remove the entry of `k` (`LruCache::pop`). -/
def lruRemove (l : List (CacheKey × CacheEntry)) (k : CacheKey) :
    List (CacheKey × CacheEntry) :=
  l.eraseP (fun p => decide (p.1 = k))

/-- `LruCache::put`: insert at the most-recently-used position, replacing an
existing entry for the same key, and otherwise silently evicting the
least-recently-used entry when the cache is at capacity. -/
def lruPut (cap : Nat) (l : List (CacheKey × CacheEntry)) (k : CacheKey) (v : CacheEntry) :
    List (CacheKey × CacheEntry) :=
  if (lruLookup l k).isSome then (k, v) :: lruRemove l k
  else if cap ≤ l.length then (k, v) :: l.dropLast
  else (k, v) :: l

/-- `LruCache::push`: like `lruPut` but returning the replaced or evicted
pair, which the source treats as an eviction. -/
def lruPush (cap : Nat) (l : List (CacheKey × CacheEntry)) (k : CacheKey) (v : CacheEntry) :
    Option (CacheKey × CacheEntry) × List (CacheKey × CacheEntry) :=
  match lruLookup l k with
  | some old => (some (k, old), (k, v) :: lruRemove l k)
  | none =>
      if cap ≤ l.length then
        match l.getLast? with
        | some last => (some last, (k, v) :: l.dropLast)
        | none => (none, [(k, v)])
      else (none, (k, v) :: l)

/-- Write a file, overwriting any previous content (`fs::write`). -/
def diskWrite (d : List (String × PersistentCacheEntry)) (path : String)
    (e : PersistentCacheEntry) : List (String × PersistentCacheEntry) :=
  (path, e) :: d.eraseP (fun p => decide (p.1 = path))

/-- Read a file if it exists. -/
def diskRead (d : List (String × PersistentCacheEntry)) (path : String) :
    Option PersistentCacheEntry :=
  (d.find? (fun p => decide (p.1 = path))).map (·.2)

/-! ### CacheManager operations (`cache.rs` lines 191-691) -/

/-- The `LruCache` capacity chosen in `CacheManager::new`:
`NonZeroUsize::new(config.max_memory_entries).unwrap_or(1000)`. -/
def CacheManager.capacity (cm : CacheManager) : Nat :=
  if cm.config.max_memory_entries = 0 then 1000 else cm.config.max_memory_entries

/-- Model of `CacheManager::new` with an empty durable tier. -/
def CacheManager.new (config : CacheConfig) : CacheManager :=
  { memory_cache := []
    config := config
    stats := ⟨0, 0, 0, 0, 0, 0, 0⟩
    disk := [] }

/-- Model of `estimate_memory_usage` (`cache.rs` lines 402-413); `.len()` on
a Rust `String` is its UTF-8 byte length. -/
def CacheManager.estimate_memory_usage (cm : CacheManager) : Nat :=
  (cm.memory_cache.map (fun p =>
    p.1.model.utf8ByteSize + p.2.response.utf8ByteSize +
    p.2.metadata.model.utf8ByteSize + p.2.metadata.backend_type.utf8ByteSize + 200)).sum

/-- Model of `update_stats` (`cache.rs` lines 415-418). -/
def CacheManager.update_stats (cm : CacheManager) : CacheManager :=
  { cm with stats := { cm.stats with
      total_entries := cm.memory_cache.length
      memory_usage_bytes := cm.estimate_memory_usage } }

/-- Model of `save_to_disk` (`cache.rs` lines 420-435), at wall time `now`. -/
def CacheManager.save_to_disk (cm : CacheManager) (env : DiskEnv) (key : CacheKey)
    (entry : CacheEntry) (now : ℚ) : Except CacheError Unit × CacheManager :=
  match cm.config.cache_dir with
  | none => (.error (.Persistence "Cache directory not configured"), cm)
  | some dir =>
      if env.mkdir_ok = false then
        (.error (.Persistence "Failed to create cache directory"), cm)
      else if env.write_ok = false then
        (.error (.Persistence "Failed to write cache file"), cm)
      else
        (.ok (), { cm with
          disk := diskWrite cm.disk (dir ++ "/" ++ cacheFileName key) (toPersistent entry now)
          stats := { cm.stats with disk_writes := cm.stats.disk_writes + 1 } })

/-- Model of `load_from_disk_by_key` (`cache.rs` lines 437-450), at instant
`now`.  The function takes `&self` and never mutates the manager. -/
def CacheManager.load_from_disk_by_key (cm : CacheManager) (env : DiskEnv) (key : CacheKey)
    (now : ℚ) : Except CacheError (Option CacheEntry) :=
  match cm.config.cache_dir with
  | none => .error (.Persistence "Cache directory not configured")
  | some dir =>
      match diskRead cm.disk (dir ++ "/" ++ cacheFileName key) with
      | none => .ok none
      | some pentry =>
          if env.read_ok = false then .error (.Persistence "Failed to read cache file")
          else .ok (some (fromPersistent pentry now))

/-- The `while self.memory_cache.len() > target_size` loop of
`handle_memory_pressure` (`cache.rs` lines 382-393), with explicit fuel.
Each iteration shortens the cache by one entry, so fuel equal to the
initial cache length makes the recursion behave exactly like the source's
loop. -/
def pressureEvictLoop (env : DiskEnv) (now : ℚ) (target : Nat) :
    Nat → CacheManager → Except CacheError Unit × CacheManager
  | 0, cm => (.ok (), cm)
  | fuel + 1, cm =>
      if target < cm.memory_cache.length then
        match cm.memory_cache.getLast? with
        | none => (.ok (), cm)
        | some (k, e) =>
            let cm1 : CacheManager := { cm with
              memory_cache := cm.memory_cache.dropLast
              stats := { cm.stats with evictions := cm.stats.evictions + 1 } }
            if cm1.config.enable_persistence then
              match cm1.save_to_disk env k e now with
              | (.error er, cm2) => (.error er, cm2)
              | (.ok _, cm2) => pressureEvictLoop env now target fuel cm2
            else pressureEvictLoop env now target fuel cm1
      else (.ok (), cm)

/-- Model of `handle_memory_pressure` (`cache.rs` lines 373-400).  The
usize casts of the f64 products are saturating-at-zero floors, which
`Int.toNat ∘ Rat.floor` reproduces; `len * 0.75` and realistic
`max_bytes * threshold` products are exact in `f64`. -/
def CacheManager.handle_memory_pressure (cm : CacheManager) (env : DiskEnv) (now : ℚ) :
    Except CacheError Unit × CacheManager :=
  match cm.config.max_memory_bytes with
  | none => (.ok (), cm)
  | some max_bytes =>
      let current_usage := cm.estimate_memory_usage
      let threshold := ((max_bytes : ℚ) * cm.config.memory_pressure_threshold).floor.toNat
      if threshold < current_usage then
        let target := ((cm.memory_cache.length : ℚ) * (3 / 4 : ℚ)).floor.toNat
        match pressureEvictLoop env now target cm.memory_cache.length cm with
        | (.error er, cm1) => (.error er, cm1)
        | (.ok _, cm1) => (.ok (), cm1.update_stats)
      else (.ok (), cm)

/-- The tail both `put` and `put_streaming` share after inserting: durably
write the new entry when persistence is enabled, then `update_stats`. -/
def CacheManager.putFinish (cm : CacheManager) (env : DiskEnv) (key : CacheKey)
    (entry : CacheEntry) (now : ℚ) : Except CacheError Unit × CacheManager :=
  if cm.config.enable_persistence then
    match cm.save_to_disk env key entry now with
    | (.error er, cm1) => (.error er, cm1)
    | (.ok _, cm1) => (.ok (), cm1.update_stats)
  else (.ok (), cm.update_stats)

/-- The body both `put` (`cache.rs` lines 260-295) and `put_streaming`
(lines 547-592) share once the entry is built: memory-pressure handling,
insertion via `push`, persisting a pushed-out entry, then `putFinish`.
The source repeats this code verbatim in the two functions. -/
def CacheManager.putEntry (cm : CacheManager) (env : DiskEnv) (key : CacheKey)
    (entry : CacheEntry) (now : ℚ) : Except CacheError Unit × CacheManager :=
  match cm.handle_memory_pressure env now with
  | (.error er, cm1) => (.error er, cm1)
  | (.ok _, cm1) =>
      match lruPush cm1.capacity cm1.memory_cache key entry with
      | (some (ek, ee), mc) =>
          let cm2 : CacheManager := { cm1 with
            memory_cache := mc
            stats := { cm1.stats with evictions := cm1.stats.evictions + 1 } }
          if cm2.config.enable_persistence then
            match cm2.save_to_disk env ek ee now with
            | (.error er, cm3) => (.error er, cm3)
            | (.ok _, cm3) => cm3.putFinish env key entry now
          else cm2.putFinish env key entry now
      | (none, mc) => ({ cm1 with memory_cache := mc }).putFinish env key entry now

/-- Model of `CacheManager::put` (`cache.rs` lines 260-295), at time `now`. -/
def CacheManager.put (cm : CacheManager) (env : DiskEnv) (key : CacheKey) (value : String)
    (metadata : ResponseMetadata) (now : ℚ) : Except CacheError Unit × CacheManager :=
  let entry : CacheEntry :=
    { response := value
      created_at := now
      access_count := 1
      metadata := metadata
      is_streaming := false
      stream_tokens := none }
  cm.putEntry env key entry now

/-- Model of `CacheManager::put_streaming` (`cache.rs` lines 547-592). -/
def CacheManager.put_streaming (cm : CacheManager) (env : DiskEnv) (key : CacheKey)
    (tokens : List StreamToken) (metadata : ResponseMetadata) (now : ℚ) :
    Except CacheError Unit × CacheManager :=
  if cm.config.cache_streaming = false then (.ok (), cm)
  else
    let entry : CacheEntry :=
      { response := String.join (tokens.map (·.content))
        created_at := now
        access_count := 1
        metadata := metadata
        is_streaming := true
        stream_tokens := some tokens }
    cm.putEntry env key entry now

/-- Model of `CacheManager::get` (`cache.rs` lines 221-258), at instant
`now`.  `get_mut` moves a found entry to the most-recently-used position
before the TTL test. -/
def CacheManager.get (cm : CacheManager) (env : DiskEnv) (key : CacheKey) (now : ℚ) :
    Option String × CacheManager :=
  match lruLookup cm.memory_cache key with
  | some entry =>
      if cm.config.ttl < elapsedSince now entry.created_at then
        (none, { cm with
          memory_cache := lruRemove cm.memory_cache key
          stats := { cm.stats with misses := cm.stats.misses + 1 } })
      else
        (some entry.response, { cm with
          memory_cache :=
            (key, { entry with access_count := entry.access_count + 1 }) ::
              lruRemove cm.memory_cache key
          stats := { cm.stats with hits := cm.stats.hits + 1 } })
  | none =>
      if cm.config.enable_persistence then
        match cm.load_from_disk_by_key env key now with
        | .ok (some entry) =>
            if elapsedSince now entry.created_at ≤ cm.config.ttl then
              (some entry.response, { cm with
                memory_cache := lruPut cm.capacity cm.memory_cache key
                  { entry with access_count := entry.access_count + 1 }
                stats := { cm.stats with
                  hits := cm.stats.hits + 1
                  disk_reads := cm.stats.disk_reads + 1 } })
            else (none, { cm with stats := { cm.stats with misses := cm.stats.misses + 1 } })
        | _ => (none, { cm with stats := { cm.stats with misses := cm.stats.misses + 1 } })
      else (none, { cm with stats := { cm.stats with misses := cm.stats.misses + 1 } })

/-- The durable-tier tail of `get_streaming` (`cache.rs` lines 612-632):
everything after the in-memory block, operating on whatever state that
block left behind. -/
def CacheManager.getStreamingDisk (cm : CacheManager) (env : DiskEnv) (key : CacheKey)
    (now : ℚ) : Option (List StreamToken) × CacheManager :=
  if cm.config.enable_persistence then
    match cm.load_from_disk_by_key env key now with
    | .ok (some entry) =>
        if elapsedSince now entry.created_at ≤ cm.config.ttl && entry.is_streaming then
          (entry.stream_tokens, { cm with
            memory_cache := lruPut cm.capacity cm.memory_cache key
              { entry with access_count := entry.access_count + 1 }
            stats := { cm.stats with
              hits := cm.stats.hits + 1
              disk_reads := cm.stats.disk_reads + 1 } })
        else (none, { cm with stats := { cm.stats with misses := cm.stats.misses + 1 } })
    | _ => (none, { cm with stats := { cm.stats with misses := cm.stats.misses + 1 } })
  else (none, { cm with stats := { cm.stats with misses := cm.stats.misses + 1 } })

/-- Model of `CacheManager::get_streaming` (`cache.rs` lines 594-633).
Note the in-memory block only returns early for expired entries and for
entries with `is_streaming`; a fresh non-streaming entry falls through to
the durable-tier tail after its hit was already counted. -/
def CacheManager.get_streaming (cm : CacheManager) (env : DiskEnv) (key : CacheKey)
    (now : ℚ) : Option (List StreamToken) × CacheManager :=
  match lruLookup cm.memory_cache key with
  | some entry =>
      if cm.config.ttl < elapsedSince now entry.created_at then
        (none, { cm with
          memory_cache := lruRemove cm.memory_cache key
          stats := { cm.stats with misses := cm.stats.misses + 1 } })
      else
        let cm1 : CacheManager := { cm with
          memory_cache :=
            (key, { entry with access_count := entry.access_count + 1 }) ::
              lruRemove cm.memory_cache key
          stats := { cm.stats with hits := cm.stats.hits + 1 } }
        if entry.is_streaming then (entry.stream_tokens, cm1)
        else cm1.getStreamingDisk env key now
  | none => cm.getStreamingDisk env key now

/-- Model of `invalidate_model` (`cache.rs` lines 297-309). -/
def CacheManager.invalidate_model (cm : CacheManager) (model : String) : CacheManager :=
  CacheManager.update_stats { cm with
    memory_cache := cm.memory_cache.filter (fun p => !decide (p.1.model = model)) }

/-- Model of `invalidate_by_parameters` (`cache.rs` lines 311-325). -/
def CacheManager.invalidate_by_parameters (cm : CacheManager) (model : String)
    (parameters : List (String × String)) : CacheManager :=
  let target := ParameterHash.new parameters
  CacheManager.update_stats { cm with
    memory_cache := cm.memory_cache.filter
      (fun p => !(decide (p.1.model = model) && decide (p.1.parameters = target))) }

/-- Model of `invalidate_expired` (`cache.rs` lines 327-340). -/
def CacheManager.invalidate_expired (cm : CacheManager) (now : ℚ) : CacheManager :=
  CacheManager.update_stats { cm with
    memory_cache := cm.memory_cache.filter
      (fun p => !decide (cm.config.ttl < elapsedSince now p.2.created_at)) }

/-- Model of `clear` (`cache.rs` lines 367-371). -/
def CacheManager.clear (cm : CacheManager) : CacheManager :=
  { cm with
    memory_cache := []
    stats := { cm.stats with total_entries := 0, memory_usage_bytes := 0 } }

/-- The `while self.memory_cache.len() > target_size` loop of
`reduce_cache_size` (`cache.rs` lines 494-500), with fuel as in
`pressureEvictLoop`; this loop never touches the durable tier. -/
def reduceLoop (target : Nat) :
    Nat → List (CacheKey × CacheEntry) → Nat → List (CacheKey × CacheEntry) × Nat
  | 0, l, ev => (l, ev)
  | fuel + 1, l, ev =>
      if target < l.length then
        match l.getLast? with
        | none => (l, ev)
        | some _ => reduceLoop target fuel l.dropLast (ev + 1)
      else (l, ev)

/-- Model of `reduce_cache_size` (`cache.rs` lines 491-503). -/
def CacheManager.reduce_cache_size (cm : CacheManager) (target_ratio : ℚ) : CacheManager :=
  let target := ((cm.memory_cache.length : ℚ) * target_ratio).floor.toNat
  let (mc, ev) := reduceLoop target cm.memory_cache.length cm.memory_cache 0
  CacheManager.update_stats { cm with
    memory_cache := mc
    stats := { cm.stats with evictions := cm.stats.evictions + ev } }

/-- The `for key in keys` loop of `warm_cache` (`cache.rs` lines 676-686). -/
def warmLoop (env : DiskEnv) (now : ℚ) : CacheManager → List CacheKey → CacheManager
  | cm, [] => cm
  | cm, k :: ks =>
      let cm1 : CacheManager :=
        if (lruLookup cm.memory_cache k).isSome then cm
        else
          match cm.load_from_disk_by_key env k now with
          | .ok (some entry) =>
              if elapsedSince now entry.created_at ≤ cm.config.ttl then
                { cm with
                  memory_cache := lruPut cm.capacity cm.memory_cache k entry
                  stats := { cm.stats with disk_reads := cm.stats.disk_reads + 1 } }
              else cm
          | _ => cm
      warmLoop env now cm1 ks

/-- Model of `warm_cache` (`cache.rs` lines 671-690). -/
def CacheManager.warm_cache (cm : CacheManager) (env : DiskEnv) (keys : List CacheKey)
    (now : ℚ) : Except CacheError Unit × CacheManager :=
  if cm.config.enable_persistence = false then (.ok (), cm)
  else (.ok (), CacheManager.update_stats (warmLoop env now cm keys))

/-- The public mutating `CacheManager` surface, as one step alphabet. -/
inductive CacheOp where
  | get (key : CacheKey) (now : ℚ)
  | put (key : CacheKey) (value : String) (metadata : ResponseMetadata) (now : ℚ)
  | put_streaming (key : CacheKey) (tokens : List StreamToken)
      (metadata : ResponseMetadata) (now : ℚ)
  | get_streaming (key : CacheKey) (now : ℚ)
  | invalidate_model (model : String)
  | invalidate_by_parameters (model : String) (parameters : List (String × String))
  | invalidate_expired (now : ℚ)
  | clear
  | reduce_cache_size (target_ratio : ℚ)
  | warm_cache (keys : List CacheKey) (now : ℚ)

/-- The state reached after one public operation (return values dropped). -/
def CacheManager.step (cm : CacheManager) (env : DiskEnv) : CacheOp → CacheManager
  | .get k now => (cm.get env k now).2
  | .put k v m now => (cm.put env k v m now).2
  | .put_streaming k ts m now => (cm.put_streaming env k ts m now).2
  | .get_streaming k now => (cm.get_streaming env k now).2
  | .invalidate_model m => cm.invalidate_model m
  | .invalidate_by_parameters m ps => cm.invalidate_by_parameters m ps
  | .invalidate_expired now => cm.invalidate_expired now
  | .clear => cm.clear
  | .reduce_cache_size r => cm.reduce_cache_size r
  | .warm_cache ks now => (cm.warm_cache env ks now).2

/-! ### Concrete fixtures used by witnesses and counterexamples -/

/-- Metadata fixture, as in the source's tests. -/
def sampleMetadata : ResponseMetadata :=
  { model := "test-model", tokens_used := some 100, response_time := 1,
    backend_type := "test" }

/-- A concrete cache key. -/
def sampleKey : CacheKey := { prompt_hash := 7, model := "test-model", parameters := ⟨5⟩ }

/-- A second key with the same prompt fingerprint but different model and
parameter fingerprint. -/
def sampleKey2 : CacheKey := { prompt_hash := 7, model := "other-model", parameters := ⟨9⟩ }

/-- The source's test configuration: TTL of one second, persistence off. -/
def ttlConfig : CacheConfig :=
  { max_memory_entries := 3, ttl := 1, enable_persistence := false, cache_streaming := true,
    cache_dir := some ".cache", max_memory_bytes := none, memory_pressure_threshold := 8 / 10 }

/-- A configuration with persistence enabled but no cache directory and a
zero memory budget, so durable writes fail and memory pressure triggers. -/
def noDirConfig : CacheConfig :=
  { max_memory_entries := 3, ttl := 3600, enable_persistence := true, cache_streaming := true,
    cache_dir := none, max_memory_bytes := some 0, memory_pressure_threshold := 1 / 2 }

/-- A configuration with persistence enabled and a cache directory. -/
def persistConfig : CacheConfig :=
  { max_memory_entries := 3, ttl := 3600, enable_persistence := true, cache_streaming := true,
    cache_dir := some ".cache", max_memory_bytes := none, memory_pressure_threshold := 8 / 10 }

/-- A durable-tier environment in which every filesystem call succeeds. -/
def allOkEnv : DiskEnv := ⟨true, true, true⟩

/-- Pointwise order on the five event counters of `CacheStats` (the
counters that only ever count events: hits, misses, evictions, disk
writes, disk reads). -/
def StatsLE (a b : CacheStats) : Prop :=
  a.hits ≤ b.hits ∧ a.misses ≤ b.misses ∧ a.evictions ≤ b.evictions
    ∧ a.disk_writes ≤ b.disk_writes ∧ a.disk_reads ≤ b.disk_reads

/-! ## Lemmas and theorems -/

/-! ### Parameter fingerprints are insertion-order independent (C4) -/

theorem mergeSort_paramLe_eq_of_perm (p1 p2 : List (String × String)) (hperm : p1.Perm p2)
    (hnd : (p1.map Prod.fst).Nodup) :
    p1.mergeSort paramLe = p2.mergeSort paramLe := by
  haveI : IsAntisymm (String × String) (fun a b => a.1 < b.1) :=
    ⟨fun a b h1 h2 => absurd (h1.trans h2) (lt_irrefl _)⟩
  have htrans : ∀ a b c : String × String,
      paramLe a b = true → paramLe b c = true → paramLe a c = true := by
    intro a b c hab hbc
    simp only [paramLe, decide_eq_true_eq] at hab hbc ⊢
    exact le_trans hab hbc
  have htot : ∀ a b : String × String, (paramLe a b || paramLe b a) = true := by
    intro a b
    simp only [paramLe, Bool.or_eq_true, decide_eq_true_eq]
    exact le_total a.1 b.1
  have hnd2 : (p2.map Prod.fst).Nodup := (hperm.map Prod.fst).nodup_iff.mp hnd
  have strict : ∀ p : List (String × String), (p.map Prod.fst).Nodup →
      List.Sorted (fun a b : String × String => a.1 < b.1) (p.mergeSort paramLe) := by
    intro p h
    have hsorted : (p.mergeSort paramLe).Pairwise (fun a b => paramLe a b = true) :=
      List.sorted_mergeSort htrans htot p
    have hkeys : ((p.mergeSort paramLe).map Prod.fst).Nodup :=
      (((List.mergeSort_perm p paramLe).map Prod.fst).nodup_iff).mpr h
    have hne : (p.mergeSort paramLe).Pairwise (fun a b : String × String => a.1 ≠ b.1) :=
      List.pairwise_map.mp hkeys
    refine (hsorted.and hne).imp ?_
    intro a b hab
    refine lt_of_le_of_ne ?_ hab.2
    simpa [paramLe] using hab.1
  exact List.eq_of_perm_of_sorted
    (((List.mergeSort_perm p1 paramLe).trans hperm).trans (List.mergeSort_perm p2 paramLe).symm)
    (strict p1 hnd) (strict p2 hnd2)

/-- C4: for every prompt, model and every two parameter maps holding the
same key/value pairs in any insertion order (keys are unique, as in a
`HashMap`), `CacheKey::new` produces structurally equal keys; in particular
the parameter fingerprints agree. -/
theorem cacheKey_new_order_independent (prompt model : String)
    (p1 p2 : List (String × String)) (hperm : p1.Perm p2)
    (hnd : (p1.map Prod.fst).Nodup) :
    CacheKey.new prompt model p1 = CacheKey.new prompt model p2 := by
  have h := mergeSort_paramLe_eq_of_perm p1 p2 hperm hnd
  simp [CacheKey.new, ParameterHash.new, h]

/-- Witness for C4 at the spec's own example shape:
maps `a:1, b:2` and `b:2, a:1`. -/
theorem cacheKey_new_order_independent_witness :
    CacheKey.new "p" "m" [("a", "1"), ("b", "2")] =
      CacheKey.new "p" "m" [("b", "2"), ("a", "1")] :=
  cacheKey_new_order_independent "p" "m" _ _ (by decide) (by decide)

/-! ### Durable-tier file names (C9) -/

theorem hexDigits_of_lt {n : Nat} (h : n < 16) : hexDigits n = [Nat.digitChar n] := by
  rw [hexDigits.eq_def]
  simp [h]

theorem hexDigits_of_ge {n : Nat} (h : 16 ≤ n) :
    hexDigits n = hexDigits (n / 16) ++ [Nat.digitChar (n % 16)] := by
  rw [hexDigits.eq_def]
  simp [Nat.not_lt.mpr h]

theorem hexDigits_ne_nil (n : Nat) : hexDigits n ≠ [] := by
  by_cases h : n < 16
  · simp [hexDigits_of_lt h]
  · simp [hexDigits_of_ge (Nat.not_lt.mp h)]

theorem digitChar_inj_below16 :
    ∀ a b : Fin 16, Nat.digitChar a.1 = Nat.digitChar b.1 → a = b := by decide

theorem hexDigits_inj : ∀ n m : Nat, hexDigits n = hexDigits m → n = m := by
  intro n
  induction n using Nat.strong_induction_on with
  | _ n ih =>
    intro m h
    by_cases hn : n < 16 <;> by_cases hm : m < 16
    · rw [hexDigits_of_lt hn, hexDigits_of_lt hm] at h
      have hc : Nat.digitChar n = Nat.digitChar m := by simpa using h
      have := digitChar_inj_below16 ⟨n, hn⟩ ⟨m, hm⟩ hc
      simpa using congrArg Fin.val this
    · rw [hexDigits_of_lt hn, hexDigits_of_ge (Nat.not_lt.mp hm)] at h
      have hlen := congrArg List.length h
      simp at hlen
      exact absurd hlen (hexDigits_ne_nil _)
    · rw [hexDigits_of_ge (Nat.not_lt.mp hn), hexDigits_of_lt hm] at h
      have hlen := congrArg List.length h
      simp at hlen
      exact absurd hlen (hexDigits_ne_nil _)
    · rw [hexDigits_of_ge (Nat.not_lt.mp hn), hexDigits_of_ge (Nat.not_lt.mp hm)] at h
      obtain ⟨h1, h2⟩ := List.append_inj' h (by simp)
      have hmod : n % 16 = m % 16 := by
        have hc : Nat.digitChar (n % 16) = Nat.digitChar (m % 16) := by simpa using h2
        have := digitChar_inj_below16 ⟨n % 16, Nat.mod_lt _ (by omega)⟩
          ⟨m % 16, Nat.mod_lt _ (by omega)⟩ hc
        simpa using congrArg Fin.val this
      have hdiv : n / 16 = m / 16 :=
        ih (n / 16) (Nat.div_lt_self (by omega) (by omega)) (m / 16) h1
      omega

/-- C9 counterexample: `format!("\x7b:x\x7d", _)` is not fixed-width, so the keys
with prompt fingerprints `0` and `16` get file names of different lengths
(`"0.json"` vs `"10.json"`). -/
theorem cacheFileName_not_fixed_width :
    (cacheFileName ⟨0, "m", ⟨0⟩⟩).length ≠ (cacheFileName ⟨16, "m", ⟨0⟩⟩).length := by
  have h0 : hexDigits 0 = ['0'] := by
    rw [hexDigits_of_lt (by omega)]
    decide
  have h16 : hexDigits 16 = ['1', '0'] := by
    rw [hexDigits_of_ge (by omega)]
    norm_num
    rw [hexDigits_of_lt (by omega)]
    decide
  simp only [cacheFileName, hexString, h0, h16]
  decide

/-- C9 amended: the durable-tier file name is derived deterministically from
the key's prompt fingerprint alone — rendered as minimal-width (unpadded)
lowercase hexadecimal with the fixed `.json` extension — and distinct
fingerprints give distinct file names; but the rendering is not
fixed-width, so file names do not all share one length. -/
theorem cacheFileName_fingerprint_iff (k1 k2 : CacheKey) :
    cacheFileName k1 = cacheFileName k2 ↔ k1.prompt_hash = k2.prompt_hash := by
  constructor
  · intro h
    apply hexDigits_inj
    have hdata := congrArg String.data h
    simp only [cacheFileName, hexString, String.data_append] at hdata
    exact (List.append_inj' hdata rfl).1
  · intro h
    simp [cacheFileName, h]

/-! ### The producer keeps forwarding past a complete token (C1) -/

/-- C1: evaluating the producer loop of `stream_chat` on the failing input —
chunk 1 carries the single record `(content "a", done = true)` and chunk 2
the single record `(content "b", done = false)`, with the receiver alive and
no cancellation — shows that the token `"b"` is still forwarded after the
token `"a"` that was marked complete: the `break` after a complete token
exits only the per-line loop, not the chunk loop. -/
theorem streamChat_forwards_after_complete_token :
    (streamChatSends [[some ⟨"a", true⟩], [some ⟨"b", false⟩]]
        (fun _ => false) none (fun _ => 0)).map (fun t => (t.content, t.is_complete)) =
      [("a", true), ("b", false)] := by
  decide

/-! ### Rate limiter admission (C5) -/

theorem refill_tokens_spec (rl : RateLimiter) (now : ℚ)
    (hlast : rl.last_refill ≤ now) (htok : rl.tokens ≤ rl.max_tokens) :
    (rl.refill_tokens now).tokens =
        min (rl.tokens + (now - rl.last_refill) * rl.refill_rate) rl.max_tokens
    ∧ (rl.refill_tokens now).current_count = rl.current_count
    ∧ (rl.refill_tokens now).max_concurrent = rl.max_concurrent := by
  have he : elapsedSince now rl.last_refill = now - rl.last_refill :=
    max_eq_left (sub_nonneg.mpr hlast)
  unfold RateLimiter.refill_tokens
  rw [he]
  by_cases hpos : 0 < now - rl.last_refill
  · simp [hpos]
  · have hz : now - rl.last_refill = 0 := le_antisymm (not_lt.mp hpos) (sub_nonneg.mpr hlast)
    simp [hz, min_eq_left htok]

/-- C5: `acquire()` succeeds exactly when, after refilling the bucket to
`min(max_tokens, tokens + elapsed × refill_rate)`, the concurrency count is
below the cap and at least one token is available; success consumes one
token and one concurrency slot, failure leaves the concurrency count
unchanged.  And concretely: with `max_concurrent = 2` and a full bucket,
two acquires succeed, a third fails, and after one `release()` a further
acquire succeeds. -/
theorem rateLimiter_acquire_spec (rl : RateLimiter) (now : ℚ)
    (hlast : rl.last_refill ≤ now) (htok : rl.tokens ≤ rl.max_tokens) :
    (((rl.acquire now).1 = true ↔
        rl.current_count < rl.max_concurrent ∧
        1 ≤ min (rl.tokens + (now - rl.last_refill) * rl.refill_rate) rl.max_tokens)
      ∧ ((rl.acquire now).1 = true →
          (rl.acquire now).2.tokens =
            min (rl.tokens + (now - rl.last_refill) * rl.refill_rate) rl.max_tokens - 1
          ∧ (rl.acquire now).2.current_count = rl.current_count + 1)
      ∧ ((rl.acquire now).1 = false →
          (rl.acquire now).2.current_count = rl.current_count))
    ∧ (((RateLimiter.new 2 10 0).acquire 0).1 = true
        ∧ (((RateLimiter.new 2 10 0).acquire 0).2.acquire 0).1 = true
        ∧ ((((RateLimiter.new 2 10 0).acquire 0).2.acquire 0).2.acquire 0).1 = false
        ∧ (((((RateLimiter.new 2 10 0).acquire 0).2.acquire 0).2.acquire 0).2.release.acquire
            0).1 = true) := by
  obtain ⟨ht, hc, hm⟩ := refill_tokens_spec rl now hlast htok
  constructor
  · have hb : rl.can_proceed now =
        (decide (rl.current_count < rl.max_concurrent) &&
          decide ((1 : ℚ) ≤ min (rl.tokens + (now - rl.last_refill) * rl.refill_rate) rl.max_tokens),
          rl.refill_tokens now) := by
      unfold RateLimiter.can_proceed
      simp only []
      rw [ht, hc, hm]
    by_cases hcc : rl.current_count < rl.max_concurrent <;>
      by_cases htk :
          (1 : ℚ) ≤ min (rl.tokens + (now - rl.last_refill) * rl.refill_rate) rl.max_tokens <;>
        simp [RateLimiter.acquire, hb, hcc, htk, ht, hc, hm]
  · norm_num [RateLimiter.acquire, RateLimiter.can_proceed, RateLimiter.refill_tokens,
      RateLimiter.release, RateLimiter.new, elapsedSince]

/-- Witness for C5 at a concrete fresh limiter. -/
theorem rateLimiter_acquire_spec_witness :
    ((RateLimiter.new 2 10 0).acquire 0).1 = true :=
  (rateLimiter_acquire_spec (RateLimiter.new 2 10 0) 0 (by norm_num [RateLimiter.new])
    (by norm_num [RateLimiter.new])).2.1

/-! ### Request retry: bounded attempts, doubling backoff, no client-error
retries (C6) -/

theorem retryGo_spec (oracle : Nat → AttemptResult) (max_retries : Nat) :
    ∀ fuel attempt delay, max_retries - attempt < fuel → attempt ≤ max_retries →
      (attempt + 1 ≤ (retryGo oracle max_retries fuel attempt delay).2.1
        ∧ (retryGo oracle max_retries fuel attempt delay).2.1 ≤ max_retries + 1)
      ∧ (retryGo oracle max_retries fuel attempt delay).2.2 =
          (List.range ((retryGo oracle max_retries fuel attempt delay).2.1 - attempt - 1)).map
            (fun i => delay * 2 ^ i)
      ∧ (∀ k, attempt ≤ k → k + 1 < (retryGo oracle max_retries fuel attempt delay).2.1 →
          retryable (oracle k))
      ∧ (∀ k s, attempt ≤ k → k < (retryGo oracle max_retries fuel attempt delay).2.1 →
          oracle k = .ok s → isSuccessStatus s = false → isServerError s = false →
          (retryGo oracle max_retries fuel attempt delay).1 = .connection s
            ∧ (retryGo oracle max_retries fuel attempt delay).2.1 = k + 1) := by
  intro fuel
  induction fuel with
  | zero =>
      intro attempt delay hfuel hle
      exact absurd hfuel (Nat.not_lt_zero _)
  | succ n ih =>
      intro attempt delay hfuel hle
      simp only [retryGo]
      rcases horacle : oracle attempt with s | _
      · simp only [horacle]
        by_cases hsucc : isSuccessStatus s
        · rw [if_pos hsucc]
          refine ⟨⟨Nat.le.refl, Nat.succ_le_succ hle⟩, ?_, fun k hk1 hk2 => ?_, ?_⟩
          · have h0 : attempt + 1 - attempt - 1 = 0 := by omega
            simp [h0]
          · have hk2' : k + 1 < attempt + 1 := hk2
            omega
          · intro k s0 hk1 hk2 hok hns hnser
            have hk2' : k < attempt + 1 := hk2
            have hks : k = attempt := by omega
            subst hks
            rw [horacle] at hok
            cases hok
            exact absurd hsucc (by simp [hns])
        · by_cases hser : isServerError s
          · by_cases hlt : attempt < max_retries
            · rw [if_neg (by simp [hsucc]), if_pos hser, if_pos hlt]
              obtain ⟨⟨ihlo, ihhi⟩, ihds, ihretry, ihclient⟩ :=
                ih (attempt + 1) (delay * 2) (by omega) (by omega)
              simp only []
              refine ⟨⟨by omega, by omega⟩, ?_, ?_, ?_⟩
              · have hm : (retryGo oracle max_retries n (attempt + 1) (delay * 2)).2.1
                    - attempt - 1 =
                    ((retryGo oracle max_retries n (attempt + 1) (delay * 2)).2.1
                      - (attempt + 1) - 1) + 1 := by omega
                rw [ihds, hm, List.range_succ_eq_map]
                simp only [List.map_cons, List.map_map, pow_zero, mul_one]
                congr 1
                apply List.map_congr_left
                intro i _
                simp only [Function.comp_apply, pow_succ]
                ring
              · intro k hk1 hk2
                rcases Nat.eq_or_lt_of_le hk1 with hk | hk
                · exact Or.inr ⟨s, by rw [hk] at horacle; exact ⟨horacle, hser⟩⟩
                · exact ihretry k (by omega) hk2
              · intro k s0 hk1 hk2 hok hns hnser
                rcases Nat.eq_or_lt_of_le hk1 with hk | hk
                · rw [← hk, horacle] at hok
                  cases hok
                  exact absurd hser (by simp [hnser])
                · exact ihclient k s0 (by omega) hk2 hok hns hnser
            · rw [if_neg (by simp [hsucc]), if_pos hser, if_neg hlt]
              refine ⟨⟨Nat.le.refl, Nat.succ_le_succ hle⟩, ?_, fun k hk1 hk2 => ?_, ?_⟩
              · have h0 : attempt + 1 - attempt - 1 = 0 := by omega
                simp [h0]
              · have hk2' : k + 1 < attempt + 1 := hk2
                omega
              · intro k s0 hk1 hk2 hok hns hnser
                have hk2' : k < attempt + 1 := hk2
                have hks : k = attempt := by omega
                subst hks
                rw [horacle] at hok
                cases hok
                exact absurd hser (by simp [hnser])
          · rw [if_neg (by simp [hsucc]), if_neg (by simp [hser])]
            refine ⟨⟨Nat.le.refl, Nat.succ_le_succ hle⟩, ?_, fun k hk1 hk2 => ?_, ?_⟩
            · have h0 : attempt + 1 - attempt - 1 = 0 := by omega
              simp [h0]
            · have hk2' : k + 1 < attempt + 1 := hk2
              omega
            · intro k s0 hk1 hk2 hok hns hnser
              have hk2' : k < attempt + 1 := hk2
              have hks : k = attempt := by omega
              subst hks
              rw [horacle] at hok
              cases hok
              exact ⟨rfl, rfl⟩
      · simp only [horacle]
        by_cases hlt : attempt < max_retries
        · rw [if_pos hlt]
          obtain ⟨⟨ihlo, ihhi⟩, ihds, ihretry, ihclient⟩ :=
            ih (attempt + 1) (delay * 2) (by omega) (by omega)
          simp only []
          refine ⟨⟨by omega, by omega⟩, ?_, ?_, ?_⟩
          · have hm : (retryGo oracle max_retries n (attempt + 1) (delay * 2)).2.1
                - attempt - 1 =
                ((retryGo oracle max_retries n (attempt + 1) (delay * 2)).2.1
                  - (attempt + 1) - 1) + 1 := by omega
            rw [ihds, hm, List.range_succ_eq_map]
            simp only [List.map_cons, List.map_map, pow_zero, mul_one]
            congr 1
            apply List.map_congr_left
            intro i _
            simp only [Function.comp_apply, pow_succ]
            ring
          · intro k hk1 hk2
            rcases Nat.eq_or_lt_of_le hk1 with hk | hk
            · exact Or.inl (by rw [hk] at horacle; exact horacle)
            · exact ihretry k (by omega) hk2
          · intro k s0 hk1 hk2 hok hns hnser
            rcases Nat.eq_or_lt_of_le hk1 with hk | hk
            · rw [← hk, horacle] at hok
              cases hok
            · exact ihclient k s0 (by omega) hk2 hok hns hnser
        · rw [if_neg hlt]
          refine ⟨⟨Nat.le.refl, Nat.succ_le_succ hle⟩, ?_, fun k hk1 hk2 => ?_, ?_⟩
          · have h0 : attempt + 1 - attempt - 1 = 0 := by omega
            simp [h0]
          · have hk2' : k + 1 < attempt + 1 := hk2
            omega
          · intro k s0 hk1 hk2 hok hns hnser
            have hk2' : k < attempt + 1 := hk2
            have hks : k = attempt := by omega
            subst hks
            rw [horacle] at hok
            cases hok

/-- C6: the retry loop of `send_request_with_retry` (i) performs at least
one attempt and at most `max_retries` retries beyond the first, (ii) sleeps
exactly once per retry, with delays `100ms, 200ms, 400ms, ...` doubling
from the 100 ms base, (iii) only ever retries after a server-error status
or a connection failure, and (iv) a non-success, non-server-error (client
error) response ends the loop immediately with a `Connection` error and no
further attempt. -/
theorem sendRequestWithRetry_spec (oracle : Nat → AttemptResult) (max_retries : Nat) :
    (1 ≤ (sendRequestWithRetry oracle max_retries).2.1
      ∧ (sendRequestWithRetry oracle max_retries).2.1 ≤ max_retries + 1)
    ∧ (sendRequestWithRetry oracle max_retries).2.2 =
        (List.range ((sendRequestWithRetry oracle max_retries).2.1 - 1)).map
          (fun i => 100 * 2 ^ i)
    ∧ (∀ k, k + 1 < (sendRequestWithRetry oracle max_retries).2.1 → retryable (oracle k))
    ∧ (∀ k s, k < (sendRequestWithRetry oracle max_retries).2.1 →
        oracle k = .ok s → isSuccessStatus s = false → isServerError s = false →
        (sendRequestWithRetry oracle max_retries).1 = .connection s
          ∧ (sendRequestWithRetry oracle max_retries).2.1 = k + 1) := by
  obtain ⟨hb, hd, hr, hc⟩ :=
    retryGo_spec oracle max_retries (max_retries + 1) 0 100 (by omega) (by omega)
  exact ⟨⟨by simpa [sendRequestWithRetry] using hb.1, by simpa [sendRequestWithRetry] using hb.2⟩,
    by simpa [sendRequestWithRetry] using hd,
    fun k hk => hr k (by omega) (by simpa [sendRequestWithRetry] using hk),
    fun k s hk hok hns hnser =>
      hc k s (by omega) (by simpa [sendRequestWithRetry] using hk) hok hns hnser⟩

/-- Witness for C6: an oracle that fails with a connection error, then a
server error 500, then succeeds with 200, under `max_retries = 3`: three
attempts, backoff delays 100 ms then 200 ms. -/
theorem sendRequestWithRetry_spec_witness :
    (1 ≤ (sendRequestWithRetry (fun i => if i = 0 then .connErr else if i = 1 then .ok 500 else .ok 200) 3).2.1
      ∧ (sendRequestWithRetry (fun i => if i = 0 then .connErr else if i = 1 then .ok 500 else .ok 200) 3).2.1 ≤ 3 + 1)
    ∧ retryable ((fun i => if i = 0 then .connErr else if i = 1 then .ok 500 else .ok 200) 1) := by
  refine ⟨(sendRequestWithRetry_spec
    (fun i => if i = 0 then .connErr else if i = 1 then .ok 500 else .ok 200) 3).1, ?_⟩
  refine (sendRequestWithRetry_spec
    (fun i => if i = 0 then .connErr else if i = 1 then .ok 500 else .ok 200) 3).2.2.1 1 ?_
  decide

/-! ### Basic LRU-list lemmas -/

theorem lruLookup_cons_self (k : CacheKey) (v : CacheEntry) (l : List (CacheKey × CacheEntry)) :
    lruLookup ((k, v) :: l) k = some v := by
  simp [lruLookup, List.find?_cons]

theorem lruRemove_cons_self (k : CacheKey) (v : CacheEntry) (l : List (CacheKey × CacheEntry)) :
    lruRemove ((k, v) :: l) k = l := by
  simp [lruRemove, List.eraseP_cons]

theorem lruLookup_eq_none_iff (l : List (CacheKey × CacheEntry)) (k : CacheKey) :
    lruLookup l k = none ↔ k ∉ l.map Prod.fst := by
  unfold lruLookup
  rw [Option.map_eq_none', List.find?_eq_none]
  simp only [decide_eq_true_eq, List.mem_map]
  constructor
  · intro h
    rintro ⟨p, hp, hk⟩
    exact h p hp hk
  · intro h p hp hk
    exact h ⟨p, hp, hk⟩

theorem keys_lruRemove_of_nodup (l : List (CacheKey × CacheEntry)) (k : CacheKey)
    (h : (l.map Prod.fst).Nodup) : k ∉ (lruRemove l k).map Prod.fst := by
  induction l with
  | nil => simp [lruRemove]
  | cons a l ih =>
      have h' : a.1 ∉ l.map Prod.fst ∧ (l.map Prod.fst).Nodup := by
        rw [List.map_cons, List.nodup_cons] at h
        exact h
      by_cases ha : a.1 = k
      · have hrem : lruRemove (a :: l) k = l := by
          simp [lruRemove, List.eraseP_cons, ha]
        rw [hrem]
        have h1 := h'.1
        rw [ha] at h1
        exact h1
      · have hrem : lruRemove (a :: l) k = a :: lruRemove l k := by
          simp [lruRemove, List.eraseP_cons, ha]
        rw [hrem]
        simp only [List.map_cons, List.mem_cons]
        rintro (hk | hk)
        · exact ha hk.symm
        · exact ih h'.2 hk

theorem lruPush_cons (cap : Nat) (l : List (CacheKey × CacheEntry)) (k : CacheKey)
    (v : CacheEntry) : ∃ rest, (lruPush cap l k v).2 = (k, v) :: rest
      ∧ ((l.map Prod.fst).Nodup → k ∉ rest.map Prod.fst) := by
  unfold lruPush
  rcases hfind : lruLookup l k with _ | old
  · by_cases hcap : cap ≤ l.length
    · rcases hlast : l.getLast? with _ | last
      · exact ⟨[], by simp [hcap, hlast], by simp⟩
      · refine ⟨l.dropLast, by simp [hcap, hlast], fun _ => ?_⟩
        have hnotin : k ∉ l.map Prod.fst := (lruLookup_eq_none_iff l k).mp hfind
        intro hmem
        exact hnotin ((l.dropLast_sublist.map Prod.fst).mem hmem)
    · refine ⟨l, by simp [hcap], fun _ => ?_⟩
      exact (lruLookup_eq_none_iff l k).mp hfind
  · exact ⟨lruRemove l k, by simp, fun hnd => keys_lruRemove_of_nodup l k hnd⟩

theorem lruPut_cons (cap : Nat) (l : List (CacheKey × CacheEntry)) (k : CacheKey)
    (v : CacheEntry) : ∃ rest, lruPut cap l k v = (k, v) :: rest := by
  unfold lruPut
  by_cases hfind : (lruLookup l k).isSome
  · exact ⟨lruRemove l k, by simp [hfind]⟩
  · by_cases hcap : cap ≤ l.length
    · exact ⟨l.dropLast, by simp [hfind, hcap]⟩
    · exact ⟨l, by simp [hfind, hcap]⟩

/-! ### Frame lemmas for the durable tier and memory pressure -/

theorem statsLE_refl (a : CacheStats) : StatsLE a a := by
  unfold StatsLE
  omega

theorem statsLE_trans {a b c : CacheStats} (h1 : StatsLE a b) (h2 : StatsLE b c) :
    StatsLE a c := by
  unfold StatsLE at h1 h2 ⊢
  omega

theorem save_to_disk_frame (cm : CacheManager) (env : DiskEnv) (k : CacheKey)
    (e : CacheEntry) (now : ℚ) :
    ((cm.save_to_disk env k e now).2.memory_cache = cm.memory_cache)
    ∧ ((cm.save_to_disk env k e now).2.config = cm.config)
    ∧ ((cm.save_to_disk env k e now).2.stats.hits = cm.stats.hits)
    ∧ ((cm.save_to_disk env k e now).2.stats.misses = cm.stats.misses)
    ∧ ((cm.save_to_disk env k e now).2.stats.evictions = cm.stats.evictions)
    ∧ ((cm.save_to_disk env k e now).2.stats.disk_reads = cm.stats.disk_reads)
    ∧ (cm.stats.disk_writes ≤ (cm.save_to_disk env k e now).2.stats.disk_writes)
    ∧ ((cm.save_to_disk env k e now).1 = .ok ()
        ∨ ∃ msg, (cm.save_to_disk env k e now).1 = .error (.Persistence msg))
    ∧ StatsLE cm.stats (cm.save_to_disk env k e now).2.stats := by
  unfold CacheManager.save_to_disk StatsLE
  rcases cm.config.cache_dir with _ | dir
  · simp
  · by_cases hm : env.mkdir_ok = false
    · simp [hm]
    · by_cases hw : env.write_ok = false
      · simp [hm, hw]
      · simp [hm, hw]

theorem update_stats_frame (cm : CacheManager) :
    ((cm.update_stats).memory_cache = cm.memory_cache)
    ∧ ((cm.update_stats).config = cm.config)
    ∧ ((cm.update_stats).disk = cm.disk)
    ∧ ((cm.update_stats).stats.hits = cm.stats.hits)
    ∧ ((cm.update_stats).stats.misses = cm.stats.misses)
    ∧ ((cm.update_stats).stats.evictions = cm.stats.evictions)
    ∧ ((cm.update_stats).stats.disk_writes = cm.stats.disk_writes)
    ∧ ((cm.update_stats).stats.disk_reads = cm.stats.disk_reads)
    ∧ StatsLE cm.stats (cm.update_stats).stats := by
  unfold CacheManager.update_stats StatsLE
  simp

theorem pressureEvictLoop_frame (env : DiskEnv) (now : ℚ) (target : Nat) :
    ∀ fuel (cm : CacheManager),
      ((pressureEvictLoop env now target fuel cm).2.config = cm.config)
      ∧ ((pressureEvictLoop env now target fuel cm).2.memory_cache <+: cm.memory_cache)
      ∧ ((pressureEvictLoop env now target fuel cm).2.stats.hits = cm.stats.hits)
      ∧ ((pressureEvictLoop env now target fuel cm).2.stats.misses = cm.stats.misses)
      ∧ StatsLE cm.stats (pressureEvictLoop env now target fuel cm).2.stats
      ∧ ((pressureEvictLoop env now target fuel cm).1 = .ok ()
          ∨ ∃ msg, (pressureEvictLoop env now target fuel cm).1 = .error (.Persistence msg))
      ∧ (cm.config.enable_persistence = false →
          (pressureEvictLoop env now target fuel cm).1 = .ok ()) := by
  intro fuel
  induction fuel with
  | zero =>
      intro cm
      refine ⟨rfl, List.prefix_refl _, rfl, rfl, statsLE_refl _, Or.inl rfl, fun _ => rfl⟩
  | succ n ih =>
      intro cm
      rw [pressureEvictLoop]
      by_cases hlen : target < cm.memory_cache.length
      · rw [if_pos hlen]
        rcases hlast : cm.memory_cache.getLast? with _ | ⟨k, e⟩
        · simp only [hlast]
          exact ⟨True.intro, List.prefix_refl _, True.intro, True.intro, statsLE_refl _,
            Or.inl True.intro, fun _ => True.intro⟩
        · simp only [hlast]
          by_cases hp : cm.config.enable_persistence
          · rw [if_pos hp]
            have hf := save_to_disk_frame
              { cm with
                memory_cache := cm.memory_cache.dropLast
                stats := { cm.stats with evictions := cm.stats.evictions + 1 } } env k e now
            split
            · rename_i er cm2 hsave
              rw [hsave] at hf
              obtain ⟨hsm, hsc, hsh, hsmi, hsev, hsr, hsw, hres, hsle⟩ := hf
              refine ⟨by simpa using hsc, ?_, by simpa using hsh, by simpa using hsmi,
                ?_, ?_, ?_⟩
              · rw [show cm2.memory_cache = cm.memory_cache.dropLast from hsm]
                exact cm.memory_cache.dropLast_prefix
              · refine statsLE_trans ?_ hsle
                unfold StatsLE
                simp only []
                refine ⟨le_refl _, le_refl _, ?_, le_refl _, le_refl _⟩
                simp
              · rcases hres with hres | ⟨msg, hres⟩
                · cases hres
                · exact Or.inr ⟨msg, by simpa using hres⟩
              · intro hpf
                rw [hpf] at hp
                cases hp
            · rename_i u cm2 hsave
              rw [hsave] at hf
              obtain ⟨hsm, hsc, hsh, hsmi, hsev, hsr, hsw, hres, hsle⟩ := hf
              obtain ⟨ihc, ihpre, ihh, ihm, ihsle, ihres, ihok⟩ := ih cm2
              refine ⟨by rw [ihc]; simpa using hsc, ?_, by rw [ihh]; simpa using hsh,
                by rw [ihm]; simpa using hsmi, ?_, ihres, ?_⟩
              · refine ihpre.trans ?_
                rw [show cm2.memory_cache = cm.memory_cache.dropLast from hsm]
                exact cm.memory_cache.dropLast_prefix
              · have h1 : StatsLE cm.stats
                    { cm.stats with evictions := cm.stats.evictions + 1 } := by
                  unfold StatsLE
                  refine ⟨le_refl _, le_refl _, ?_, le_refl _, le_refl _⟩
                  simp
                have h2 : StatsLE cm.stats cm2.stats :=
                  statsLE_trans h1 (by simpa using hsle)
                exact statsLE_trans h2 ihsle
              · intro hpf
                rw [hpf] at hp
                cases hp
          · rw [if_neg hp]
            obtain ⟨ihc, ihpre, ihh, ihm, ihsle, ihres, ihok⟩ := ih
              { cm with
                memory_cache := cm.memory_cache.dropLast
                stats := { cm.stats with evictions := cm.stats.evictions + 1 } }
            refine ⟨by simpa using ihc, ?_, by simpa using ihh, by simpa using ihm,
              ?_, ihres, ?_⟩
            · exact ihpre.trans cm.memory_cache.dropLast_prefix
            · refine statsLE_trans ?_ ihsle
              unfold StatsLE
              refine ⟨le_refl _, le_refl _, ?_, le_refl _, le_refl _⟩
              simp
            · intro hpf
              apply ihok
              simpa using hpf
      · rw [if_neg hlen]
        exact ⟨rfl, List.prefix_refl _, rfl, rfl, statsLE_refl _, Or.inl rfl, fun _ => rfl⟩

theorem handle_memory_pressure_frame (cm : CacheManager) (env : DiskEnv) (now : ℚ) :
    ((cm.handle_memory_pressure env now).2.config = cm.config)
    ∧ ((cm.handle_memory_pressure env now).2.memory_cache <+: cm.memory_cache)
    ∧ ((cm.handle_memory_pressure env now).2.stats.hits = cm.stats.hits)
    ∧ ((cm.handle_memory_pressure env now).2.stats.misses = cm.stats.misses)
    ∧ StatsLE cm.stats (cm.handle_memory_pressure env now).2.stats
    ∧ ((cm.handle_memory_pressure env now).1 = .ok ()
        ∨ ∃ msg, (cm.handle_memory_pressure env now).1 = .error (.Persistence msg))
    ∧ (cm.config.enable_persistence = false →
        (cm.handle_memory_pressure env now).1 = .ok ()) := by
  unfold CacheManager.handle_memory_pressure
  rcases hmb : cm.config.max_memory_bytes with _ | max_bytes
  · exact ⟨rfl, List.prefix_refl _, rfl, rfl, statsLE_refl _, Or.inl rfl, fun _ => rfl⟩
  · simp only []
    by_cases hth : (((max_bytes : ℚ) * cm.config.memory_pressure_threshold).floor.toNat
        < cm.estimate_memory_usage)
    · rw [if_pos hth]
      obtain ⟨hc, hpre, hh, hm, hsle, hres, hok⟩ := pressureEvictLoop_frame env now
        (((cm.memory_cache.length : ℚ) * (3 / 4 : ℚ)).floor.toNat)
        cm.memory_cache.length cm
      split
      · rename_i er cm1 hloop
        rw [hloop] at hc hpre hh hm hsle hres hok
        refine ⟨by simpa using hc, by simpa using hpre, by simpa using hh,
          by simpa using hm, by simpa using hsle, ?_, ?_⟩
        · rcases hres with hres | ⟨msg, hres⟩
          · cases hres
          · exact Or.inr ⟨msg, by simpa using hres⟩
        · intro hpf
          have him := hok hpf
          cases him
      · rename_i u cm1 hloop
        rw [hloop] at hc hpre hh hm hsle
        obtain ⟨um, uc, ud, uh, umi, uev, uw, ur, usle⟩ := update_stats_frame cm1
        have hc' : cm1.config = cm.config := by simpa using hc
        have hpre' : cm1.memory_cache <+: cm.memory_cache := by simpa using hpre
        have hh' : cm1.stats.hits = cm.stats.hits := by simpa using hh
        have hm' : cm1.stats.misses = cm.stats.misses := by simpa using hm
        have hsle' : StatsLE cm.stats cm1.stats := by simpa using hsle
        refine ⟨?_, ?_, ?_, ?_, ?_, Or.inl rfl, fun _ => rfl⟩
        · show cm1.update_stats.config = cm.config
          rw [uc, hc']
        · show cm1.update_stats.memory_cache <+: cm.memory_cache
          rw [um]
          exact hpre'
        · show cm1.update_stats.stats.hits = cm.stats.hits
          rw [uh, hh']
        · show cm1.update_stats.stats.misses = cm.stats.misses
          rw [umi, hm']
        · show StatsLE cm.stats cm1.update_stats.stats
          exact statsLE_trans hsle' usle
    · rw [if_neg hth]
      exact ⟨rfl, List.prefix_refl _, rfl, rfl, statsLE_refl _, Or.inl rfl, fun _ => rfl⟩

theorem putFinish_frame (cm : CacheManager) (env : DiskEnv) (k : CacheKey) (e : CacheEntry)
    (now : ℚ) :
    ((cm.putFinish env k e now).2.memory_cache = cm.memory_cache)
    ∧ ((cm.putFinish env k e now).2.config = cm.config)
    ∧ ((cm.putFinish env k e now).2.stats.hits = cm.stats.hits)
    ∧ ((cm.putFinish env k e now).2.stats.misses = cm.stats.misses)
    ∧ StatsLE cm.stats (cm.putFinish env k e now).2.stats
    ∧ ((cm.putFinish env k e now).1 = .ok ()
        ∨ ∃ msg, (cm.putFinish env k e now).1 = .error (.Persistence msg))
    ∧ (cm.config.enable_persistence = false → (cm.putFinish env k e now).1 = .ok ()) := by
  unfold CacheManager.putFinish
  by_cases hp : cm.config.enable_persistence
  · rw [if_pos hp]
    have hf := save_to_disk_frame cm env k e now
    split
    · rename_i er cm1 hsave
      rw [hsave] at hf
      obtain ⟨hsm, hsc, hsh, hsmi, hsev, hsr, hsw, hres, hsle⟩ := hf
      refine ⟨by simpa using hsm, by simpa using hsc, by simpa using hsh,
        by simpa using hsmi, by simpa using hsle, ?_, ?_⟩
      · rcases hres with hres | ⟨msg, hres⟩
        · cases hres
        · exact Or.inr ⟨msg, by simpa using hres⟩
      · intro hpf
        rw [hpf] at hp
        cases hp
    · rename_i u cm1 hsave
      rw [hsave] at hf
      obtain ⟨hsm, hsc, hsh, hsmi, hsev, hsr, hsw, hres, hsle⟩ := hf
      obtain ⟨uc, um, ud, uh, umi, uev, uw, ur, usle⟩ := update_stats_frame cm1
      exact ⟨by rw [uc]; simpa using hsm, by rw [um]; simpa using hsc,
        by rw [uh]; simpa using hsh, by rw [umi]; simpa using hsmi,
        statsLE_trans (by simpa using hsle) usle, Or.inl rfl, fun _ => rfl⟩
  · rw [if_neg hp]
    obtain ⟨uc, um, ud, uh, umi, uev, uw, ur, usle⟩ := update_stats_frame cm
    exact ⟨uc, um, uh, umi, usle, Or.inl rfl, fun _ => rfl⟩

theorem putEntry_frame (cm : CacheManager) (env : DiskEnv) (k : CacheKey) (e : CacheEntry)
    (now : ℚ) :
    ((cm.putEntry env k e now).2.config = cm.config)
    ∧ StatsLE cm.stats (cm.putEntry env k e now).2.stats
    ∧ ((cm.putEntry env k e now).1 = .ok ()
        ∨ ∃ msg, (cm.putEntry env k e now).1 = .error (.Persistence msg))
    ∧ (cm.config.enable_persistence = false → (cm.putEntry env k e now).1 = .ok ()) := by
  unfold CacheManager.putEntry
  obtain ⟨hc, hpre, hh, hm, hsle, hres, hok⟩ := handle_memory_pressure_frame cm env now
  split
  · rename_i er cm1 hmp
    rw [hmp] at hc hsle hres hok
    refine ⟨by simpa using hc, by simpa using hsle, ?_, ?_⟩
    · rcases hres with hres | ⟨msg, hres⟩
      · cases hres
      · exact Or.inr ⟨msg, by simpa using hres⟩
    · intro hpf
      have him := hok hpf
      cases him
  · rename_i u cm1 hmp
    rw [hmp] at hc hsle
    have hc' : cm1.config = cm.config := by simpa using hc
    have hsle' : StatsLE cm.stats cm1.stats := by simpa using hsle
    split
    · rename_i ek ee mc hpush
      by_cases hp : cm.config.enable_persistence
      · rw [if_pos (by simpa [hc'] using hp)]
        have hfs := save_to_disk_frame
          { cm1 with
            memory_cache := mc
            stats := { cm1.stats with evictions := cm1.stats.evictions + 1 } } env ek ee now
        split
        · rename_i er cm3 hsave
          rw [hsave] at hfs
          obtain ⟨hsm, hsc, hsh, hsmi, hsev, hsr, hsw, hres2, hsle2⟩ := hfs
          refine ⟨by rw [show cm3.config = _ from by simpa using hsc]; exact hc', ?_, ?_, ?_⟩
          · refine statsLE_trans hsle' (statsLE_trans ?_ (by simpa using hsle2))
            unfold StatsLE
            refine ⟨le_refl _, le_refl _, ?_, le_refl _, le_refl _⟩
            simp
          · rcases hres2 with hres2 | ⟨msg, hres2⟩
            · cases hres2
            · exact Or.inr ⟨msg, by simpa using hres2⟩
          · intro hpf
            rw [hpf] at hp
            cases hp
        · rename_i u2 cm3 hsave
          rw [hsave] at hfs
          obtain ⟨hsm, hsc, hsh, hsmi, hsev, hsr, hsw, hres2, hsle2⟩ := hfs
          obtain ⟨pfm, pfc, pfh, pfmi, pfsle, pfres, pfok⟩ := putFinish_frame cm3 env k e now
          refine ⟨?_, ?_, pfres, ?_⟩
          · rw [pfc, show cm3.config = _ from by simpa using hsc]
            exact hc'
          · refine statsLE_trans hsle' (statsLE_trans ?_ pfsle)
            refine statsLE_trans ?_ (by simpa using hsle2)
            unfold StatsLE
            refine ⟨le_refl _, le_refl _, ?_, le_refl _, le_refl _⟩
            simp
          · intro hpf
            rw [hpf] at hp
            cases hp
      · rw [if_neg (by simpa [hc'] using hp)]
        obtain ⟨pfm, pfc, pfh, pfmi, pfsle, pfres, pfok⟩ := putFinish_frame
          { cm1 with
            memory_cache := mc
            stats := { cm1.stats with evictions := cm1.stats.evictions + 1 } } env k e now
        refine ⟨by rw [pfc]; simpa using hc', ?_, pfres, ?_⟩
        · refine statsLE_trans hsle' (statsLE_trans ?_ pfsle)
          unfold StatsLE
          refine ⟨le_refl _, le_refl _, ?_, le_refl _, le_refl _⟩
          simp
        · intro hpf
          apply pfok
          simpa [hc'] using hpf
    · rename_i mc hpush
      obtain ⟨pfm, pfc, pfh, pfmi, pfsle, pfres, pfok⟩ := putFinish_frame
        { cm1 with memory_cache := mc } env k e now
      refine ⟨by rw [pfc]; simpa using hc', ?_, pfres, ?_⟩
      · exact statsLE_trans hsle' (statsLE_trans (by simpa using statsLE_refl cm1.stats) pfsle)
      · intro hpf
        apply pfok
        simpa [hc'] using hpf

theorem putEntry_memory (cm : CacheManager) (env : DiskEnv) (k : CacheKey) (e : CacheEntry)
    (now : ℚ) (hok : (cm.handle_memory_pressure env now).1 = .ok ()) :
    ∃ rest, (cm.putEntry env k e now).2.memory_cache = (k, e) :: rest
      ∧ ((cm.memory_cache.map Prod.fst).Nodup → k ∉ rest.map Prod.fst) := by
  unfold CacheManager.putEntry
  obtain ⟨hc, hpre, hh, hm, hsle, hres, hokf⟩ := handle_memory_pressure_frame cm env now
  split
  · rename_i er cm1 hmp
    rw [hmp] at hok
    cases hok
  · rename_i u cm1 hmp
    rw [hmp] at hpre
    have hpre' : cm1.memory_cache <+: cm.memory_cache := by simpa using hpre
    have hnd1 : (cm.memory_cache.map Prod.fst).Nodup →
        (cm1.memory_cache.map Prod.fst).Nodup := fun hnd =>
      hnd.sublist (hpre'.sublist.map Prod.fst)
    obtain ⟨rest, hpush, hndrest⟩ := lruPush_cons cm1.capacity cm1.memory_cache k e
    split
    · rename_i ek ee mc hpusheq
      rw [hpusheq] at hpush
      have hmc : mc = (k, e) :: rest := by simpa using hpush
      by_cases hp : cm1.config.enable_persistence
      · rw [if_pos (by simpa using hp)]
        have hfs := save_to_disk_frame
          { cm1 with
            memory_cache := mc
            stats := { cm1.stats with evictions := cm1.stats.evictions + 1 } } env ek ee now
        split
        · rename_i er cm3 hsave
          rw [hsave] at hfs
          refine ⟨rest, ?_, fun hnd => hndrest (hnd1 hnd)⟩
          have hsm := hfs.1
          simp only [] at hsm ⊢
          rw [hsm]
          simpa using hmc
        · rename_i u2 cm3 hsave
          rw [hsave] at hfs
          have hsm := hfs.1
          obtain ⟨pfm, pfc, pfh, pfmi, pfsle, pfres, pfok⟩ := putFinish_frame cm3 env k e now
          refine ⟨rest, ?_, fun hnd => hndrest (hnd1 hnd)⟩
          rw [pfm]
          simp only [] at hsm
          rw [hsm]
          simpa using hmc
      · rw [if_neg (by simpa using hp)]
        obtain ⟨pfm, pfc, pfh, pfmi, pfsle, pfres, pfok⟩ := putFinish_frame
          { cm1 with
            memory_cache := mc
            stats := { cm1.stats with evictions := cm1.stats.evictions + 1 } } env k e now
        refine ⟨rest, ?_, fun hnd => hndrest (hnd1 hnd)⟩
        rw [pfm]
        simpa using hmc
    · rename_i mc hpusheq
      rw [hpusheq] at hpush
      have hmc : mc = (k, e) :: rest := by simpa using hpush
      obtain ⟨pfm, pfc, pfh, pfmi, pfsle, pfres, pfok⟩ := putFinish_frame
        { cm1 with memory_cache := mc } env k e now
      refine ⟨rest, ?_, fun hnd => hndrest (hnd1 hnd)⟩
      rw [pfm]
      simpa using hmc

/-! ### Shapes of `get` on the in-memory tier -/

theorem get_memory_fresh (cm : CacheManager) (env : DiskEnv) (k : CacheKey) (now : ℚ)
    (e : CacheEntry) (hfind : lruLookup cm.memory_cache k = some e)
    (hfresh : ¬ cm.config.ttl < elapsedSince now e.created_at) :
    cm.get env k now =
      (some e.response,
        { cm with
          memory_cache := (k, { e with access_count := e.access_count + 1 }) ::
            lruRemove cm.memory_cache k
          stats := { cm.stats with hits := cm.stats.hits + 1 } }) := by
  unfold CacheManager.get
  simp only [hfind]
  rw [if_neg hfresh]

theorem get_memory_expired (cm : CacheManager) (env : DiskEnv) (k : CacheKey) (now : ℚ)
    (e : CacheEntry) (hfind : lruLookup cm.memory_cache k = some e)
    (hexp : cm.config.ttl < elapsedSince now e.created_at) :
    cm.get env k now =
      (none,
        { cm with
          memory_cache := lruRemove cm.memory_cache k
          stats := { cm.stats with misses := cm.stats.misses + 1 } }) := by
  unfold CacheManager.get
  simp only [hfind]
  rw [if_pos hexp]

/-! ### Each lookup records exactly one hit or miss — counter lemmas -/

theorem get_counters (cm : CacheManager) (env : DiskEnv) (k : CacheKey) (now : ℚ) :
    ((cm.get env k now).2.stats.hits = cm.stats.hits + 1
      ∧ (cm.get env k now).2.stats.misses = cm.stats.misses)
    ∨ ((cm.get env k now).2.stats.hits = cm.stats.hits
      ∧ (cm.get env k now).2.stats.misses = cm.stats.misses + 1) := by
  unfold CacheManager.get
  rcases hfind : lruLookup cm.memory_cache k with _ | entry
  · simp only [hfind]
    by_cases hp : cm.config.enable_persistence
    · rw [if_pos hp]
      split
      · split
        · left
          simp
        · right
          simp
      · right
        simp
    · rw [if_neg hp]
      right
      simp
  · simp only [hfind]
    split
    · right
      simp
    · left
      simp

theorem getStreamingDisk_counters (cm : CacheManager) (env : DiskEnv) (k : CacheKey)
    (now : ℚ) :
    ((cm.getStreamingDisk env k now).2.stats.hits = cm.stats.hits + 1
      ∧ (cm.getStreamingDisk env k now).2.stats.misses = cm.stats.misses)
    ∨ ((cm.getStreamingDisk env k now).2.stats.hits = cm.stats.hits
      ∧ (cm.getStreamingDisk env k now).2.stats.misses = cm.stats.misses + 1) := by
  unfold CacheManager.getStreamingDisk
  by_cases hp : cm.config.enable_persistence
  · rw [if_pos hp]
    split
    · split
      · left
        simp
      · right
        simp
    · right
      simp
  · rw [if_neg hp]
    right
    simp

/-! ### TTL expiry (C3) -/

/-- C3: with TTL configured to one second and persistence disabled (keys in
the LRU store are unique, as `LruCache` guarantees), a value put at t = 0
is returned by a `get` at t = 0, which records exactly one hit; a later
`get` at any t ≥ 1.1 returns none, removes the entry from the in-memory
store, and increments the miss counter by exactly one. -/
theorem cache_ttl_expiry (cm : CacheManager) (env : DiskEnv) (k : CacheKey) (v : String)
    (m : ResponseMetadata) (t : ℚ) (httl : cm.config.ttl = 1)
    (hp : cm.config.enable_persistence = false)
    (hnd : (cm.memory_cache.map Prod.fst).Nodup) (ht : (11 / 10 : ℚ) ≤ t) :
    ((cm.put env k v m 0).2.get env k 0).1 = some v
    ∧ ((cm.put env k v m 0).2.get env k 0).2.stats.hits
        = (cm.put env k v m 0).2.stats.hits + 1
    ∧ ((cm.put env k v m 0).2.get env k 0).2.stats.misses
        = (cm.put env k v m 0).2.stats.misses
    ∧ ((((cm.put env k v m 0).2.get env k 0).2).get env k t).1 = none
    ∧ lruLookup (((((cm.put env k v m 0).2.get env k 0).2).get env k t).2).memory_cache k
        = none
    ∧ (((((cm.put env k v m 0).2.get env k 0).2).get env k t).2).stats.misses
        = (((cm.put env k v m 0).2.get env k 0).2).stats.misses + 1
    ∧ (((((cm.put env k v m 0).2.get env k 0).2).get env k t).2).stats.hits
        = (((cm.put env k v m 0).2.get env k 0).2).stats.hits := by
  have hok : (cm.handle_memory_pressure env 0).1 = .ok () :=
    (handle_memory_pressure_frame cm env 0).2.2.2.2.2.2 hp
  obtain ⟨rest, hmem0, hndk0⟩ := putEntry_memory cm env k
    { response := v, created_at := 0, access_count := 1, metadata := m,
      is_streaming := false, stream_tokens := none } 0 hok
  have hmem : (cm.put env k v m 0).2.memory_cache =
      (k, { response := v, created_at := 0, access_count := 1, metadata := m,
            is_streaming := false, stream_tokens := none }) :: rest := hmem0
  have hcfg : (cm.put env k v m 0).2.config = cm.config :=
    (putEntry_frame cm env k
      { response := v, created_at := 0, access_count := 1, metadata := m,
        is_streaming := false, stream_tokens := none } 0).1
  have hndk : k ∉ rest.map Prod.fst := hndk0 hnd
  have hfind1 : lruLookup (cm.put env k v m 0).2.memory_cache k =
      some { response := v, created_at := 0, access_count := 1, metadata := m,
             is_streaming := false, stream_tokens := none } := by
    rw [hmem]
    exact lruLookup_cons_self _ _ _
  have hfresh1 : ¬ (cm.put env k v m 0).2.config.ttl < elapsedSince 0 0 := by
    rw [hcfg, httl]
    norm_num [elapsedSince]
  have h1 := get_memory_fresh (cm.put env k v m 0).2 env k 0 _ hfind1 hfresh1
  rw [h1]
  simp only []
  refine ⟨True.intro, True.intro, True.intro, ?_⟩
  have hrem1 : lruRemove (cm.put env k v m 0).2.memory_cache k = rest := by
    rw [hmem]
    exact lruRemove_cons_self _ _ _
  have hfind2 : lruLookup
      ((k, ({ response := v, created_at := 0, access_count := 1 + 1, metadata := m,
              is_streaming := false, stream_tokens := none } : CacheEntry)) ::
        lruRemove (cm.put env k v m 0).2.memory_cache k) k =
      some { response := v, created_at := 0, access_count := 1 + 1, metadata := m,
             is_streaming := false, stream_tokens := none } :=
    lruLookup_cons_self _ _ _
  have hexp2 : (cm.put env k v m 0).2.config.ttl < elapsedSince t 0 := by
    rw [hcfg, httl]
    simp only [elapsedSince]
    have h0 : (0 : ℚ) ≤ t - 0 := by linarith
    rw [max_eq_left h0]
    linarith
  have h2 := get_memory_expired
    { (cm.put env k v m 0).2 with
      memory_cache := (k, ({ response := v, created_at := 0, access_count := 1 + 1,
                             metadata := m, is_streaming := false,
                             stream_tokens := none } : CacheEntry)) ::
        lruRemove (cm.put env k v m 0).2.memory_cache k
      stats := { (cm.put env k v m 0).2.stats with
                 hits := (cm.put env k v m 0).2.stats.hits + 1 } } env k t _ hfind2 hexp2
  rw [h2]
  simp only []
  refine ⟨True.intro, ?_, True.intro, True.intro⟩
  rw [lruRemove_cons_self, hrem1]
  exact (lruLookup_eq_none_iff rest k).mpr hndk

/-- Witness for C3 at a concrete configuration (TTL = 1 s, persistence
off), key and value, with the expired query at t = 2. -/
theorem cache_ttl_expiry_witness :
    (((CacheManager.new ttlConfig).put allOkEnv sampleKey "resp" sampleMetadata 0).2.get
        allOkEnv sampleKey 0).1 = some "resp"
    ∧ (((((CacheManager.new ttlConfig).put allOkEnv sampleKey "resp"
          sampleMetadata 0).2.get allOkEnv sampleKey 0).2).get allOkEnv sampleKey 2).1
        = none := by
  have h := cache_ttl_expiry (CacheManager.new ttlConfig) allOkEnv sampleKey "resp"
    sampleMetadata 2 rfl rfl (by simp [CacheManager.new]) (by norm_num)
  exact ⟨h.1, h.2.2.2.1⟩

/-! ### `put` failure semantics (C2) -/

theorem rat_floor_eq_int_floor (q : ℚ) : q.floor = ⌊q⌋ := rfl

/-- C2 counterexample: with persistence enabled but no cache directory and
a zero memory budget, a first `put` leaves one entry resident; the second
`put` then fails with a `Persistence` error raised by the pre-insertion
memory-pressure eviction — before the new entry was inserted — so the
lookup of the newly put key finds nothing: the in-memory insertion the
claim promises did not happen at all. -/
theorem put_persistence_error_without_insertion :
    ((((CacheManager.new noDirConfig).put allOkEnv sampleKey "v0" sampleMetadata 0).2).put
        allOkEnv sampleKey2 "v1" sampleMetadata 0).1
      = .error (.Persistence "Cache directory not configured")
    ∧ lruLookup ((((CacheManager.new noDirConfig).put allOkEnv sampleKey "v0"
        sampleMetadata 0).2).put allOkEnv sampleKey2 "v1" sampleMetadata 0).2.memory_cache
        sampleKey2 = none := by
  norm_num +decide [rat_floor_eq_int_floor, CacheManager.put, CacheManager.putEntry,
    CacheManager.handle_memory_pressure, pressureEvictLoop, CacheManager.estimate_memory_usage,
    CacheManager.save_to_disk, CacheManager.putFinish, CacheManager.update_stats, lruPush,
    lruLookup, lruRemove, CacheManager.capacity, CacheManager.new, noDirConfig, sampleKey,
    sampleKey2, sampleMetadata]

/-- C2 amended: with persistence disabled `put` always succeeds; `put` can
only fail with a `Persistence` (or serialization) error from the durable
tier; and whenever the pre-insertion memory-pressure phase succeeded, a
`put` — even one that then returns a `Persistence` error from a durable
write — leaves the newly inserted entry in the in-memory store (no
rollback).  When the memory-pressure phase itself fails, `put` errors
before inserting. -/
theorem put_error_semantics (cm : CacheManager) (env : DiskEnv) (k : CacheKey) (v : String)
    (m : ResponseMetadata) (now : ℚ) :
    (cm.config.enable_persistence = false → (cm.put env k v m now).1 = .ok ())
    ∧ ((cm.put env k v m now).1 = .ok ()
        ∨ ∃ msg, (cm.put env k v m now).1 = .error (.Persistence msg))
    ∧ ((cm.handle_memory_pressure env now).1 = .ok () →
        lruLookup (cm.put env k v m now).2.memory_cache k =
          some { response := v, created_at := now, access_count := 1, metadata := m,
                 is_streaming := false, stream_tokens := none }) := by
  refine ⟨?_, ?_, ?_⟩
  · intro hp
    exact (putEntry_frame cm env k
      { response := v, created_at := now, access_count := 1, metadata := m,
        is_streaming := false, stream_tokens := none } now).2.2.2 hp
  · exact (putEntry_frame cm env k
      { response := v, created_at := now, access_count := 1, metadata := m,
        is_streaming := false, stream_tokens := none } now).2.2.1
  · intro hok
    obtain ⟨rest, hmem, _⟩ := putEntry_memory cm env k
      { response := v, created_at := now, access_count := 1, metadata := m,
        is_streaming := false, stream_tokens := none } now hok
    have hmem' : (cm.put env k v m now).2.memory_cache =
        (k, { response := v, created_at := now, access_count := 1, metadata := m,
              is_streaming := false, stream_tokens := none }) :: rest := hmem
    rw [hmem']
    exact lruLookup_cons_self _ _ _

/-- Witness for C2's amended statement: a concrete `put` with persistence
disabled succeeds. -/
theorem put_error_semantics_witness :
    ((CacheManager.new ttlConfig).put allOkEnv sampleKey "r" sampleMetadata 0).1 = .ok () :=
  (put_error_semantics (CacheManager.new ttlConfig) allOkEnv sampleKey "r"
    sampleMetadata 0).1 rfl

/-! ### Hit/miss counter discipline of `get` and `get_streaming` (C7) -/

theorem get_streaming_fresh_nonstreaming (cm : CacheManager) (env : DiskEnv) (k : CacheKey)
    (now : ℚ) (e : CacheEntry) (hfind : lruLookup cm.memory_cache k = some e)
    (hfresh : ¬ cm.config.ttl < elapsedSince now e.created_at)
    (hnstr : e.is_streaming = false) :
    ((cm.get_streaming env k now).2.stats.hits = cm.stats.hits + 2
      ∧ (cm.get_streaming env k now).2.stats.misses = cm.stats.misses)
    ∨ ((cm.get_streaming env k now).2.stats.hits = cm.stats.hits + 1
      ∧ (cm.get_streaming env k now).2.stats.misses = cm.stats.misses + 1) := by
  unfold CacheManager.get_streaming CacheManager.getStreamingDisk
  simp only [hfind]
  rw [if_neg hfresh]
  simp only [hnstr, Bool.false_eq_true, if_false]
  by_cases hp : cm.config.enable_persistence = true
  · simp only [hp, if_true]
    split
    · split
      · left
        constructor
        · simp
        · simp
      · right
        constructor
        · simp
        · simp
    · right
      constructor
      · simp
      · simp
  · simp only [hp, if_false]
    right
    constructor
    · simp
    · simp

theorem get_streaming_fresh_nonstreaming_no_persist (cm : CacheManager) (env : DiskEnv)
    (k : CacheKey) (now : ℚ) (e : CacheEntry)
    (hfind : lruLookup cm.memory_cache k = some e)
    (hfresh : ¬ cm.config.ttl < elapsedSince now e.created_at)
    (hnstr : e.is_streaming = false) (hp : cm.config.enable_persistence = false) :
    (cm.get_streaming env k now).2.stats.hits = cm.stats.hits + 1
    ∧ (cm.get_streaming env k now).2.stats.misses = cm.stats.misses + 1 := by
  unfold CacheManager.get_streaming CacheManager.getStreamingDisk
  simp only [hfind]
  rw [if_neg hfresh]
  simp only [hnstr, Bool.false_eq_true, if_false, hp]
  constructor
  · simp
  · simp

/-- C7 counterexample: a single `get_streaming` call on a key whose
in-memory entry is fresh but non-streaming increments BOTH counters —
`hits` (counted before the `is_streaming` test) and then `misses` (from
the fallthrough into the durable-tier tail), not exactly one of them. -/
theorem get_streaming_double_count :
    (((CacheManager.new ttlConfig).put allOkEnv sampleKey "resp"
        sampleMetadata 0).2).stats.hits = 0
    ∧ (((CacheManager.new ttlConfig).put allOkEnv sampleKey "resp"
        sampleMetadata 0).2).stats.misses = 0
    ∧ ((((CacheManager.new ttlConfig).put allOkEnv sampleKey "resp"
        sampleMetadata 0).2).get_streaming allOkEnv sampleKey 0).2.stats.hits = 1
    ∧ ((((CacheManager.new ttlConfig).put allOkEnv sampleKey "resp"
        sampleMetadata 0).2).get_streaming allOkEnv sampleKey 0).2.stats.misses = 1 := by
  have h := get_streaming_fresh_nonstreaming_no_persist
    (((CacheManager.new ttlConfig).put allOkEnv sampleKey "resp" sampleMetadata 0).2)
    allOkEnv sampleKey 0
    { response := "resp", created_at := 0, access_count := 1, metadata := sampleMetadata,
      is_streaming := false, stream_tokens := none }
    (by decide)
    (by
      rw [show (((CacheManager.new ttlConfig).put allOkEnv sampleKey "resp"
          sampleMetadata 0).2).config = ttlConfig from rfl]
      norm_num [elapsedSince, ttlConfig])
    rfl rfl
  refine ⟨by decide, by decide, ?_, ?_⟩
  · rw [h.1]
    decide
  · rw [h.2]
    decide

/-- C7 amended: every `get` increments exactly one of the hit and miss
counters, by exactly one.  `get_streaming` does the same whenever any
fresh in-memory entry for the key is a streaming entry (or there is no
fresh in-memory entry); but when the key's fresh in-memory entry is
non-streaming, the call counts a hit AND then also runs the durable-tier
fallback, incrementing a second counter (hits again on a fresh streaming
disk entry, otherwise misses). -/
theorem get_streaming_counter_discipline (cm : CacheManager) (env : DiskEnv) (k : CacheKey)
    (now : ℚ) :
    (((cm.get env k now).2.stats.hits = cm.stats.hits + 1
        ∧ (cm.get env k now).2.stats.misses = cm.stats.misses)
      ∨ ((cm.get env k now).2.stats.hits = cm.stats.hits
        ∧ (cm.get env k now).2.stats.misses = cm.stats.misses + 1))
    ∧ ((∀ e, lruLookup cm.memory_cache k = some e →
          elapsedSince now e.created_at ≤ cm.config.ttl → e.is_streaming = true) →
        (((cm.get_streaming env k now).2.stats.hits = cm.stats.hits + 1
            ∧ (cm.get_streaming env k now).2.stats.misses = cm.stats.misses)
          ∨ ((cm.get_streaming env k now).2.stats.hits = cm.stats.hits
            ∧ (cm.get_streaming env k now).2.stats.misses = cm.stats.misses + 1)))
    ∧ (∀ e, lruLookup cm.memory_cache k = some e →
        elapsedSince now e.created_at ≤ cm.config.ttl → e.is_streaming = false →
        (((cm.get_streaming env k now).2.stats.hits = cm.stats.hits + 2
            ∧ (cm.get_streaming env k now).2.stats.misses = cm.stats.misses)
          ∨ ((cm.get_streaming env k now).2.stats.hits = cm.stats.hits + 1
            ∧ (cm.get_streaming env k now).2.stats.misses = cm.stats.misses + 1))) := by
  refine ⟨get_counters cm env k now, ?_, ?_⟩
  · intro hstream
    unfold CacheManager.get_streaming
    rcases hfind : lruLookup cm.memory_cache k with _ | entry
    · simp only [hfind]
      exact getStreamingDisk_counters cm env k now
    · simp only [hfind]
      by_cases hexp : cm.config.ttl < elapsedSince now entry.created_at
      · rw [if_pos hexp]
        right
        simp
      · rw [if_neg hexp]
        have hstr : entry.is_streaming = true := hstream entry hfind (not_lt.mp hexp)
        simp only [hstr, if_true]
        left
        simp
  · intro e hfind hfresh hnstr
    exact get_streaming_fresh_nonstreaming cm env k now e hfind (not_lt.mpr hfresh) hnstr

/-- Witness for C7's amended statement: the non-streaming fresh-entry case
at a concrete state, where a second counter increments. -/
theorem get_streaming_counter_discipline_witness :
    (((((CacheManager.new ttlConfig).put allOkEnv sampleKey "resp"
          sampleMetadata 0).2).get_streaming allOkEnv sampleKey 0).2.stats.hits
        = (((CacheManager.new ttlConfig).put allOkEnv sampleKey "resp"
            sampleMetadata 0).2).stats.hits + 2
      ∧ ((((CacheManager.new ttlConfig).put allOkEnv sampleKey "resp"
          sampleMetadata 0).2).get_streaming allOkEnv sampleKey 0).2.stats.misses
        = (((CacheManager.new ttlConfig).put allOkEnv sampleKey "resp"
            sampleMetadata 0).2).stats.misses)
    ∨ (((((CacheManager.new ttlConfig).put allOkEnv sampleKey "resp"
          sampleMetadata 0).2).get_streaming allOkEnv sampleKey 0).2.stats.hits
        = (((CacheManager.new ttlConfig).put allOkEnv sampleKey "resp"
            sampleMetadata 0).2).stats.hits + 1
      ∧ ((((CacheManager.new ttlConfig).put allOkEnv sampleKey "resp"
          sampleMetadata 0).2).get_streaming allOkEnv sampleKey 0).2.stats.misses
        = (((CacheManager.new ttlConfig).put allOkEnv sampleKey "resp"
            sampleMetadata 0).2).stats.misses + 1) :=
  (get_streaming_counter_discipline
    (((CacheManager.new ttlConfig).put allOkEnv sampleKey "resp" sampleMetadata 0).2)
    allOkEnv sampleKey 0).2.2
    { response := "resp", created_at := 0, access_count := 1, metadata := sampleMetadata,
      is_streaming := false, stream_tokens := none }
    (by decide)
    (by
      rw [show (((CacheManager.new ttlConfig).put allOkEnv sampleKey "resp"
          sampleMetadata 0).2).config = ttlConfig from rfl]
      norm_num [elapsedSince, ttlConfig])
    rfl

/-! ### Monotonicity of the event counters (C8) -/

/-- C8 counterexample: `clear` resets `total_entries` (and
`memory_usage_bytes`) to zero, so after one `put` has set
`total_entries = 1`, the public operation `clear` strictly decreases it. -/
theorem clear_decreases_total_entries :
    ((((CacheManager.new ttlConfig).put allOkEnv sampleKey "resp"
        sampleMetadata 0).2).clear).stats.total_entries
      < (((CacheManager.new ttlConfig).put allOkEnv sampleKey "resp"
        sampleMetadata 0).2).stats.total_entries := by
  decide

theorem get_statsLE (cm : CacheManager) (env : DiskEnv) (k : CacheKey) (now : ℚ) :
    StatsLE cm.stats (cm.get env k now).2.stats := by
  unfold CacheManager.get
  rcases hfind : lruLookup cm.memory_cache k with _ | entry
  · simp only [hfind]
    by_cases hp : cm.config.enable_persistence
    · rw [if_pos hp]
      split
      · split
        · unfold StatsLE
          refine ⟨?_, ?_, ?_, ?_, ?_⟩ <;> simp
        · unfold StatsLE
          refine ⟨?_, ?_, ?_, ?_, ?_⟩ <;> simp
      · unfold StatsLE
        refine ⟨?_, ?_, ?_, ?_, ?_⟩ <;> simp
    · rw [if_neg hp]
      unfold StatsLE
      refine ⟨?_, ?_, ?_, ?_, ?_⟩ <;> simp
  · simp only [hfind]
    split
    · unfold StatsLE
      refine ⟨?_, ?_, ?_, ?_, ?_⟩ <;> simp
    · unfold StatsLE
      refine ⟨?_, ?_, ?_, ?_, ?_⟩ <;> simp

theorem getStreamingDisk_statsLE (cm : CacheManager) (env : DiskEnv) (k : CacheKey)
    (now : ℚ) : StatsLE cm.stats (cm.getStreamingDisk env k now).2.stats := by
  unfold CacheManager.getStreamingDisk
  by_cases hp : cm.config.enable_persistence
  · rw [if_pos hp]
    split
    · split
      · unfold StatsLE
        refine ⟨?_, ?_, ?_, ?_, ?_⟩ <;> simp
      · unfold StatsLE
        refine ⟨?_, ?_, ?_, ?_, ?_⟩ <;> simp
    · unfold StatsLE
      refine ⟨?_, ?_, ?_, ?_, ?_⟩ <;> simp
  · rw [if_neg hp]
    unfold StatsLE
    refine ⟨?_, ?_, ?_, ?_, ?_⟩ <;> simp

theorem get_streaming_statsLE (cm : CacheManager) (env : DiskEnv) (k : CacheKey) (now : ℚ) :
    StatsLE cm.stats (cm.get_streaming env k now).2.stats := by
  unfold CacheManager.get_streaming
  rcases hfind : lruLookup cm.memory_cache k with _ | entry
  · simp only [hfind]
    exact getStreamingDisk_statsLE cm env k now
  · simp only [hfind]
    by_cases hexp : cm.config.ttl < elapsedSince now entry.created_at
    · rw [if_pos hexp]
      unfold StatsLE
      refine ⟨?_, ?_, ?_, ?_, ?_⟩ <;> simp
    · rw [if_neg hexp]
      by_cases hstr : entry.is_streaming = true
      · simp only [hstr, if_true]
        unfold StatsLE
        refine ⟨?_, ?_, ?_, ?_, ?_⟩ <;> simp
      · simp only [hstr, if_false]
        refine statsLE_trans ?_ (getStreamingDisk_statsLE _ env k now)
        unfold StatsLE
        refine ⟨?_, ?_, ?_, ?_, ?_⟩ <;> simp

theorem reduce_cache_size_statsLE (cm : CacheManager) (ratio : ℚ) :
    StatsLE cm.stats (cm.reduce_cache_size ratio).stats := by
  unfold CacheManager.reduce_cache_size
  have h : ∀ (p : List (CacheKey × CacheEntry) × Nat),
      StatsLE cm.stats (CacheManager.update_stats
        { cm with
          memory_cache := p.1
          stats := { cm.stats with evictions := cm.stats.evictions + p.2 } }).stats := by
    intro p
    refine statsLE_trans ?_ (update_stats_frame _).2.2.2.2.2.2.2.2
    unfold StatsLE
    refine ⟨?_, ?_, ?_, ?_, ?_⟩ <;> simp
  exact h _

theorem warmLoop_statsLE (env : DiskEnv) (now : ℚ) :
    ∀ keys (cm : CacheManager), StatsLE cm.stats (warmLoop env now cm keys).stats := by
  intro keys
  induction keys with
  | nil =>
      intro cm
      exact statsLE_refl _
  | cons k ks ih =>
      intro cm
      rw [warmLoop]
      refine statsLE_trans ?_ (ih _)
      by_cases hsome : (lruLookup cm.memory_cache k).isSome
      · simp only [hsome, if_true]
        exact statsLE_refl _
      · simp only [hsome, Bool.false_eq_true, if_false]
        split
        · split
          · unfold StatsLE
            refine ⟨?_, ?_, ?_, ?_, ?_⟩ <;> simp
          · exact statsLE_refl _
        · exact statsLE_refl _

theorem warm_cache_statsLE (cm : CacheManager) (env : DiskEnv) (keys : List CacheKey)
    (now : ℚ) : StatsLE cm.stats (cm.warm_cache env keys now).2.stats := by
  unfold CacheManager.warm_cache
  by_cases hp : cm.config.enable_persistence = false
  · rw [if_pos hp]
    exact statsLE_refl _
  · rw [if_neg hp]
    obtain ⟨um, uc, ud, uh, umi, uev, uw, ur, usle⟩ :=
      update_stats_frame (warmLoop env now cm keys)
    exact statsLE_trans (warmLoop_statsLE env now keys cm) usle

/-- C8 amended: the five event counters — hits, misses, evictions,
disk_writes, disk_reads — are monotonic under every public `CacheManager`
operation; the gauges `total_entries` and `memory_usage_bytes` are not
counters and can decrease (see the counterexample: `clear` resets them). -/
theorem cacheStats_event_counters_monotonic (cm : CacheManager) (env : DiskEnv)
    (op : CacheOp) : StatsLE cm.stats (cm.step env op).stats := by
  cases op with
  | get k now => exact get_statsLE cm env k now
  | put k v m now => exact (putEntry_frame cm env k
      { response := v, created_at := now, access_count := 1, metadata := m,
        is_streaming := false, stream_tokens := none } now).2.1
  | put_streaming k ts m now =>
      show StatsLE cm.stats (cm.put_streaming env k ts m now).2.stats
      unfold CacheManager.put_streaming
      by_cases hs : cm.config.cache_streaming = false
      · rw [if_pos hs]
        exact statsLE_refl _
      · rw [if_neg hs]
        exact (putEntry_frame cm env k _ now).2.1
  | get_streaming k now => exact get_streaming_statsLE cm env k now
  | invalidate_model m =>
      show StatsLE cm.stats (cm.invalidate_model m).stats
      unfold CacheManager.invalidate_model
      exact (update_stats_frame _).2.2.2.2.2.2.2.2
  | invalidate_by_parameters m ps =>
      show StatsLE cm.stats (cm.invalidate_by_parameters m ps).stats
      unfold CacheManager.invalidate_by_parameters
      exact (update_stats_frame _).2.2.2.2.2.2.2.2
  | invalidate_expired now =>
      show StatsLE cm.stats (cm.invalidate_expired now).stats
      unfold CacheManager.invalidate_expired
      exact (update_stats_frame _).2.2.2.2.2.2.2.2
  | clear =>
      show StatsLE cm.stats cm.clear.stats
      unfold CacheManager.clear StatsLE
      refine ⟨?_, ?_, ?_, ?_, ?_⟩ <;> simp
  | reduce_cache_size r => exact reduce_cache_size_statsLE cm r
  | warm_cache ks now => exact warm_cache_statsLE cm env ks now

/-! ### The durable-tier path depends only on the prompt fingerprint (C10) -/

theorem put_from_empty_persist (cfg : CacheConfig) (env : DiskEnv) (d : String)
    (k : CacheKey) (v : String) (m : ResponseMetadata) (now : ℚ)
    (hp : cfg.enable_persistence = true) (hd : cfg.cache_dir = some d)
    (hb : cfg.max_memory_bytes = none)
    (hmk : env.mkdir_ok = true) (hw : env.write_ok = true) :
    (CacheManager.new cfg).put env k v m now =
      (.ok (),
        { memory_cache :=
            [(k,
              { response := v, created_at := now, access_count := 1, metadata := m,
                is_streaming := false, stream_tokens := none })]
          config := cfg
          stats :=
            { hits := 0, misses := 0, total_entries := 1,
              memory_usage_bytes :=
                k.model.utf8ByteSize + v.utf8ByteSize + m.model.utf8ByteSize
                  + m.backend_type.utf8ByteSize + 200,
              evictions := 0, disk_writes := 1, disk_reads := 0 }
          disk :=
            [(d ++ "/" ++ cacheFileName k,
              toPersistent
                { response := v, created_at := now, access_count := 1, metadata := m,
                  is_streaming := false, stream_tokens := none } now)] }) := by
  unfold CacheManager.put CacheManager.putEntry
  simp [CacheManager.handle_memory_pressure, CacheManager.new, hb, lruPush, lruLookup,
    CacheManager.putFinish, CacheManager.save_to_disk, diskWrite,
    CacheManager.update_stats, CacheManager.estimate_memory_usage, hp, hd, hmk, hw]

/-- C10: with persistence enabled, the durable-tier file path ignores the
model and the parameter fingerprint: after a `put` under `k1` into a fresh
cache, a `get` under any distinct key `k2` with the same prompt fingerprint
misses in memory yet returns `k1`'s non-expired response from disk,
recording a hit and a disk read. -/
theorem disk_path_ignores_model_and_parameters (cfg : CacheConfig) (env : DiskEnv)
    (d : String) (k1 k2 : CacheKey) (v : String) (m : ResponseMetadata) (t : ℚ)
    (hp : cfg.enable_persistence = true) (hd : cfg.cache_dir = some d)
    (hb : cfg.max_memory_bytes = none) (httl : 0 ≤ cfg.ttl)
    (hmk : env.mkdir_ok = true) (hw : env.write_ok = true) (hr : env.read_ok = true)
    (hh : k1.prompt_hash = k2.prompt_hash) (hne : k1 ≠ k2) :
    lruLookup ((CacheManager.new cfg).put env k1 v m 0).2.memory_cache k2 = none
    ∧ (((CacheManager.new cfg).put env k1 v m 0).2.get env k2 t).1 = some v
    ∧ (((CacheManager.new cfg).put env k1 v m 0).2.get env k2 t).2.stats.hits
        = ((CacheManager.new cfg).put env k1 v m 0).2.stats.hits + 1
    ∧ (((CacheManager.new cfg).put env k1 v m 0).2.get env k2 t).2.stats.disk_reads
        = ((CacheManager.new cfg).put env k1 v m 0).2.stats.disk_reads + 1 := by
  have hput := put_from_empty_persist cfg env d k1 v m 0 hp hd hb hmk hw
  rw [hput]
  have hne2 : decide (k1 = k2) = false := decide_eq_false hne
  have hfn : cacheFileName k2 = cacheFileName k1 := by
    unfold cacheFileName
    rw [hh]
  refine ⟨?_, ?_, ?_, ?_⟩ <;>
    simp [CacheManager.get, lruLookup, hne2, hp, hd, hr,
      CacheManager.load_from_disk_by_key, diskRead, hfn, fromPersistent, toPersistent,
      elapsedSince, httl]

/-- Witness for C10 at a concrete configuration and key pair. -/
theorem disk_path_ignores_model_and_parameters_witness :
    lruLookup ((CacheManager.new persistConfig).put allOkEnv sampleKey "resp"
        sampleMetadata 0).2.memory_cache sampleKey2 = none
    ∧ (((CacheManager.new persistConfig).put allOkEnv sampleKey "resp"
        sampleMetadata 0).2.get allOkEnv sampleKey2 0).1 = some "resp"
    ∧ (((CacheManager.new persistConfig).put allOkEnv sampleKey "resp"
        sampleMetadata 0).2.get allOkEnv sampleKey2 0).2.stats.hits
        = ((CacheManager.new persistConfig).put allOkEnv sampleKey "resp"
            sampleMetadata 0).2.stats.hits + 1
    ∧ (((CacheManager.new persistConfig).put allOkEnv sampleKey "resp"
        sampleMetadata 0).2.get allOkEnv sampleKey2 0).2.stats.disk_reads
        = ((CacheManager.new persistConfig).put allOkEnv sampleKey "resp"
            sampleMetadata 0).2.stats.disk_reads + 1 :=
  disk_path_ignores_model_and_parameters persistConfig allOkEnv ".cache" sampleKey
    sampleKey2 "resp" sampleMetadata 0 rfl rfl rfl (by norm_num [persistConfig])
    rfl rfl rfl rfl (by decide)

end Edith
